import Mathlib

/-!
Shallow embedding of the explicit-path backend (`src/path-seat.c`) of
libinput: the path registry, the seat registry, device enable/disable,
suspend/resume, and the change-seat operation.

Modelling conventions:
* C strings obtained from `strdup`/`safe_strdup` are modelled as a content
  `String` paired with a fresh `Nat` identity (the pointer).  The removal
  scan in `libinput_path_remove_device` compares pointers
  (`dev->devnode == evdev->devnode`), which the model renders as equality
  of identities.
* Allocation always succeeds (`zalloc` aborts on failure in the C code,
  and the spec treats allocation exhaustion as fatal to the one
  operation); the corresponding error branches are therefore unreachable
  in the model.
* The driver adapter `evdev_device_create`, the seat helpers
  `libinput_seat_init` / `libinput_seat_ref` / `libinput_seat_unref` and
  `evdev_device_remove` are not part of `src/`; they are modelled from
  the spec, as noted on each definition.
-/

namespace PathSeat

/-- Outcome of the driver adapter for one devnode: a live device, the
distinguished `EVDEV_UNHANDLED_DEVICE` sentinel, or `NULL` (creation
failure). -/
inductive AdapterResult where
  | created
  | unhandled
  | failed
deriving DecidableEq, Repr

/-- A path registry record (`struct path_device`): the duplicated devnode
string (content plus pointer identity) and the derived sysname. -/
structure PathRecord where
  devnodeId : Nat
  devnode : String
  sysname : String
deriving DecidableEq, Repr

/-- A live device.  Modelled from the spec: the adapter stores the devnode
it was handed (the path record's string, hence the shared `devnodeId`),
the sysname, and a weak back-reference to its seat (`seatId`).  `devId`
is the device object's own identity. -/
structure Device where
  devId : Nat
  devnodeId : Nat
  devnode : String
  sysname : String
  seatId : Nat
deriving DecidableEq, Repr

/-- A seat (`struct path_seat` wrapping `struct libinput_seat`): name
pair, reference count and the device list.  `seatId` is the object's
identity (its address). -/
structure Seat where
  seatId : Nat
  physical_name : String
  logical_name : String
  refcount : Nat
  devices_list : List Device
deriving DecidableEq, Repr

/-- The path backend context (`struct path_input`): the path registry,
the seat registry of the embedded `struct libinput`, and a counter
supplying fresh object/string identities. -/
structure PathInput where
  path_list : List PathRecord
  seat_list : List Seat
  nextId : Nat
deriving DecidableEq, Repr

/-- The driver adapter, abstracted: given the seat's physical name,
the seat's logical name, the devnode content and the sysname, decide the
outcome of `evdev_device_create`. -/
def Adapter : Type := String → String → String → String → AdapterResult

def default_seat : String := "seat0"

def default_seat_name : String := "default"

/-- Log severities used by the backend. -/
inductive LogLevel where
  | info
  | error
  | bug_client
deriving DecidableEq, Repr

/-- Modelled from the spec: `libinput_seat_ref` increments the reference
count of the seat object with the given identity. -/
def libinput_seat_ref (l : List Seat) (sid : Nat) : List Seat :=
  l.map fun st => if st.seatId = sid then { st with refcount := st.refcount + 1 } else st

/-- Modelled from the spec: `libinput_seat_unref` decrements the
reference count of the seat with the given identity; a decrement that
reaches zero unlinks the seat from the registry and destroys it. -/
def libinput_seat_unref (l : List Seat) (sid : Nat) : List Seat :=
  l.filterMap fun st =>
    if st.seatId = sid then
      if st.refcount ≤ 1 then none else some { st with refcount := st.refcount - 1 }
    else some st

/-- Modelled from the spec: on a `created` outcome the adapter attaches
the new device to the seat's device set, and the device holds a seat
reference through its membership. -/
def seatAttachDevice (l : List Seat) (sid : Nat) (d : Device) : List Seat :=
  l.map fun st =>
    if st.seatId = sid then
      { st with devices_list := d :: st.devices_list, refcount := st.refcount + 1 }
    else st

/-- `path_seat_get_named`: linear scan of the seat registry for an exact
match on both names (`streq` compares content). -/
def path_seat_get_named (input : PathInput) (phys lg : String) : Option Seat :=
  input.seat_list.find? fun st => st.physical_name = phys ∧ st.logical_name = lg

/-- Remove the first device with the given identity from a device list
(`list_remove` on the node found by the scan). -/
def removeFirstDev (l : List Device) (i : Nat) : List Device :=
  match l with
  | [] => []
  | d :: rest => if d.devId = i then rest else d :: removeFirstDev rest i

/-- Remove the first record whose devnode pointer has the given identity
(`list_remove` on the node found by the scan). -/
def removeFirstRecord (l : List PathRecord) (i : Nat) : List PathRecord :=
  match l with
  | [] => []
  | r :: rest => if r.devnodeId = i then rest else r :: removeFirstRecord rest i

/-- Modelled from the spec: `evdev_device_remove` detaches the device
from its seat's device set and releases the seat reference the device
held; the unref reaching zero destroys the seat. -/
def evdev_device_remove (input : PathInput) (device : Device) : PathInput :=
  let sl := input.seat_list.map fun st =>
    if st.seatId = device.seatId then
      { st with devices_list := removeFirstDev st.devices_list device.devId }
    else st
  { input with seat_list := libinput_seat_unref sl device.seatId }

/-- `path_disable_device`: scan the device's seat's device list for the
device itself (pointer comparison) and, when found, remove it. -/
def path_disable_device (input : PathInput) (device : Device) : PathInput :=
  match input.seat_list.find? (fun st => st.seatId = device.seatId) with
  | none => input
  | some seat =>
    if seat.devices_list.any (fun d => d.devId = device.devId) then
      evdev_device_remove input device
    else input

/-- One step of the inner sweep of `path_input_disable`: disable, in
order, each device of the snapshot taken when the seat's turn began. -/
def disableSeatDevices (input : PathInput) : List Device → PathInput
  | [] => input
  | d :: rest => disableSeatDevices (path_disable_device input d) rest

/-- One step of the outer sweep of `path_input_disable`: take a seat
reference for the duration of the sweep, disable every device in the
seat's current device list, release the reference. -/
def path_input_disable_seat (input : PathInput) (sid : Nat) : PathInput :=
  match input.seat_list.find? (fun st => st.seatId = sid) with
  | none => input
  | some seat =>
    let input1 : PathInput := { input with seat_list := libinput_seat_ref input.seat_list sid }
    let input2 := disableSeatDevices input1 seat.devices_list
    { input2 with seat_list := libinput_seat_unref input2.seat_list sid }

/-- `path_input_disable` (the backend's suspend): sweep every seat in the
registry, each processed as in `path_input_disable_seat`.  The safe list
traversal of the C code is rendered by iterating over the snapshot of
seat identities taken when the sweep starts. -/
def path_input_disable (input : PathInput) : PathInput :=
  (input.seat_list.map Seat.seatId).foldl path_input_disable_seat input

/-- The seat-resolution step of `path_device_enable`: look up the seat
for the resolved name pair and take a reference, or create a new seat
(`path_seat_create` via `libinput_seat_init`, modelled from the spec:
reference count seeded to one, empty device set, linked into the
registry).  Returns the updated context and the seat's identity. -/
def enableResolveSeat (input : PathInput) (seat_logical_name : String) : PathInput × Nat :=
  match path_seat_get_named input default_seat seat_logical_name with
  | some st =>
    ({ input with seat_list := libinput_seat_ref input.seat_list st.seatId }, st.seatId)
  | none =>
    let sid := input.nextId
    let seat : Seat :=
      { seatId := sid, physical_name := default_seat, logical_name := seat_logical_name,
        refcount := 1, devices_list := [] }
    ({ input with seat_list := seat :: input.seat_list, nextId := input.nextId + 1 }, sid)

/-- The adapter step of `path_device_enable`: invoke the adapter, on
success attach the created device, then release the local seat
reference unconditionally (line order of the C code: the unref precedes
the dispatch on the result). -/
def enableAdapterStep (A : Adapter) (input1 : PathInput) (sid : Nat) (dev : PathRecord)
    (seat_logical_name : String) : PathInput × Option Device :=
  match A default_seat seat_logical_name dev.devnode dev.sysname with
  | AdapterResult.created =>
    let d : Device :=
      { devId := input1.nextId, devnodeId := dev.devnodeId, devnode := dev.devnode,
        sysname := dev.sysname, seatId := sid }
    let input2 : PathInput :=
      { input1 with seat_list := seatAttachDevice input1.seat_list sid d,
                    nextId := input1.nextId + 1 }
    ({ input2 with seat_list := libinput_seat_unref input2.seat_list sid }, some d)
  | AdapterResult.unhandled =>
    ({ input1 with seat_list := libinput_seat_unref input1.seat_list sid }, none)
  | AdapterResult.failed =>
    ({ input1 with seat_list := libinput_seat_unref input1.seat_list sid }, none)

/-- `path_device_enable`: resolve the seat name pair (physical name is
always the default, there being no property source; logical name is the
override when given, else the default), look up or create the seat,
invoke the adapter, release the local seat reference, and dispatch on
the adapter outcome. -/
def path_device_enable (A : Adapter) (input : PathInput) (dev : PathRecord)
    (seat_logical_name_override : Option String) : PathInput × Option Device :=
  let seat_logical_name := seat_logical_name_override.getD default_seat_name
  let step := enableResolveSeat input seat_logical_name
  enableAdapterStep A step.1 step.2 dev seat_logical_name

/-- The log entries emitted by one `path_device_enable` call (format
paddings and quoting elided): nothing on success, an informational line
for the unhandled sentinel, an informational line for a creation
failure. -/
def path_device_enable_logs (A : Adapter) (dev : PathRecord)
    (seat_logical_name_override : Option String) : List (LogLevel × String) :=
  match A default_seat (seat_logical_name_override.getD default_seat_name)
      dev.devnode dev.sysname with
  | AdapterResult.created => []
  | AdapterResult.unhandled =>
    [(LogLevel.info, dev.sysname ++ " - not using input device " ++ dev.devnode)]
  | AdapterResult.failed =>
    [(LogLevel.info, dev.sysname ++ " - failed to create input device " ++ dev.devnode)]

/-- The sysname characters: the suffix of the devnode after the last
separator, when a separator occurs (`strrchr(devnode, del)` followed by the
increment). -/
def sysnameChars : List Char → Option (List Char)
  | [] => none
  | c :: rest =>
    match sysnameChars rest with
    | some s => some s
    | none => if c = '/' then some rest else none

/-- The sysname of a devnode: the substring after the last separator, or
the empty string when the devnode has none. -/
def sysnameOf (devnode : String) : String :=
  match sysnameChars devnode.toList with
  | some s => String.mk s
  | none => ""

/-- `path_create_device`: duplicate the devnode, derive the sysname,
insert the record at the head of the path registry, enable it; when the
enable yields no device, unlink and free the freshly inserted record. -/
def path_create_device (A : Adapter) (input : PathInput) (devnode : String)
    (seat_name : Option String) : PathInput × Option Device :=
  let i := input.nextId
  let dev : PathRecord := { devnodeId := i, devnode := devnode, sysname := sysnameOf devnode }
  let input1 : PathInput :=
    { input with path_list := dev :: input.path_list, nextId := input.nextId + 1 }
  match path_device_enable A input1 dev seat_name with
  | (input2, some d) => (input2, some d)
  | (input2, none) =>
    ({ input2 with path_list := removeFirstRecord input2.path_list i }, none)

/-- `path_input_enable` (the backend's resume), iterating the snapshot of
the path registry: enable each record with no logical-name override; on
the first record that yields no device, run the suspend sweep and report
failure. -/
def path_input_enable_go (A : Adapter) (input : PathInput) :
    List PathRecord → PathInput × Int
  | [] => (input, 0)
  | dev :: rest =>
    match path_device_enable A input dev none with
    | (input1, some _) => path_input_enable_go A input1 rest
    | (input1, none) => (path_input_disable input1, -1)

/-- `path_input_enable`: enable every registered path record, in registry
order; all-or-nothing via the suspend sweep on first failure. -/
def path_input_enable (A : Adapter) (input : PathInput) : PathInput × Int :=
  path_input_enable_go A input input.path_list

/-- `libinput_path_create_context` with a non-null interface: both
registries empty. -/
def initialInput : PathInput :=
  { path_list := [], seat_list := [], nextId := 0 }

/-- `libinput_path_add_device` on a context of the matching backend:
`path_create_device` with no seat-name override. -/
def libinput_path_add_device (A : Adapter) (input : PathInput) (path : String) :
    PathInput × Option Device :=
  path_create_device A input path none

/-- `libinput_path_remove_device` on a context of the matching backend:
scan the path registry for the record whose devnode pointer equals the
device's devnode pointer and unlink it; then take a seat reference,
disable the device, release the reference. -/
def libinput_path_remove_device (input : PathInput) (device : Device) : PathInput :=
  let input1 : PathInput :=
    { input with path_list := removeFirstRecord input.path_list device.devnodeId }
  let input2 : PathInput :=
    { input1 with seat_list := libinput_seat_ref input1.seat_list device.seatId }
  let input3 := path_disable_device input2 device
  { input3 with seat_list := libinput_seat_unref input3.seat_list device.seatId }

/-- `path_device_change_seat`: duplicate the devnode content, remove the
device (path record and device both), re-add the devnode as a fresh
record enabled under the new logical name; succeed iff the re-enable
produced a device. -/
def path_device_change_seat (A : Adapter) (input : PathInput) (device : Device)
    (seat_name : String) : PathInput × Int :=
  let devnode := device.devnode
  let input1 := libinput_path_remove_device input device
  match path_create_device A input1 devnode (some seat_name) with
  | (input2, some _) => (input2, 0)
  | (input2, none) => (input2, -1)

/-! ### Derived views of the state and the registry invariant -/

/-- All devices attached to any seat of the registry. -/
def seatDevs (l : List Seat) : List Device := l.flatMap Seat.devices_list

/-- The (physical, logical) name pairs of the seats, in registry order. -/
def seatPairs (l : List Seat) : List (String × String) :=
  l.map fun st => (st.physical_name, st.logical_name)

/-- The device handle `d` is currently attached to some seat of `s`. -/
def DeviceIn (s : PathInput) (d : Device) : Prop :=
  ∃ st ∈ s.seat_list, d ∈ st.devices_list

instance decidableDeviceIn (s : PathInput) (d : Device) : Decidable (DeviceIn s d) :=
  inferInstanceAs (Decidable (∃ st ∈ s.seat_list, d ∈ st.devices_list))

/-- The registry invariant.  `P` constrains every devnode string held by
a path record or a live device; the remaining clauses say that object
identities are distinct and fresh with respect to the allocation
counter, that seat name pairs are unique, that reference counts of live
seats are positive, and that every device's weak seat back-reference
points at the seat that holds it. -/
structure Inv (P : String → Prop) (s : PathInput) : Prop where
  seatIdsNodup : (s.seat_list.map Seat.seatId).Nodup
  seatIdsLt : ∀ st ∈ s.seat_list, st.seatId < s.nextId
  pairsNodup : (seatPairs s.seat_list).Nodup
  refPos : ∀ st ∈ s.seat_list, 1 ≤ st.refcount
  backRef : ∀ st ∈ s.seat_list, ∀ d ∈ st.devices_list, d.seatId = st.seatId
  devIdsNodup : ((seatDevs s.seat_list).map Device.devId).Nodup
  devIdsLt : ∀ d ∈ seatDevs s.seat_list, d.devId < s.nextId
  devRecIdLt : ∀ d ∈ seatDevs s.seat_list, d.devnodeId < s.nextId
  devP : ∀ d ∈ seatDevs s.seat_list, P d.devnode
  recIdsNodup : (s.path_list.map PathRecord.devnodeId).Nodup
  recIdsLt : ∀ r ∈ s.path_list, r.devnodeId < s.nextId
  recP : ∀ r ∈ s.path_list, P r.devnode

/-- The unconstrained instance of the invariant. -/
def WF (s : PathInput) : Prop := Inv (fun _ => True) s

/-- States reachable through the backend's exported operations, the
devnode of every added path satisfying `P`; device arguments are
handles the caller legitimately holds. -/
inductive ReachableP (P : String → Prop) : PathInput → Prop where
  | init : ReachableP P initialInput
  | add : ∀ (A : Adapter) (s : PathInput) (path : String), ReachableP P s → P path →
      ReachableP P (libinput_path_add_device A s path).1
  | remove : ∀ (s : PathInput) (d : Device), ReachableP P s → DeviceIn s d →
      ReachableP P (libinput_path_remove_device s d)
  | suspend : ∀ (s : PathInput), ReachableP P s → ReachableP P (path_input_disable s)
  | resume : ∀ (A : Adapter) (s : PathInput), ReachableP P s →
      ReachableP P (path_input_enable A s).1
  | moveSeat : ∀ (A : Adapter) (s : PathInput) (d : Device) (nm : String),
      ReachableP P s → DeviceIn s d → ReachableP P (path_device_change_seat A s d nm).1

/-- States reachable with no constraint on the added paths. -/
def Reachable : PathInput → Prop := ReachableP (fun _ => True)

/-! ### List-level helper lemmas -/

theorem mem_removeFirstDev {l : List Device} {i : Nat} {x : Device}
    (h : x ∈ removeFirstDev l i) : x ∈ l := by
  induction l with
  | nil => simp [removeFirstDev] at h
  | cons d rest ih =>
    by_cases hd : d.devId = i
    · simp only [removeFirstDev, if_pos hd] at h
      exact List.mem_cons_of_mem _ h
    · simp only [removeFirstDev, if_neg hd, List.mem_cons] at h
      rcases h with h | h
      · exact h ▸ List.mem_cons_self _ _
      · exact List.mem_cons_of_mem _ (ih h)

theorem removeFirstDev_sublist (l : List Device) (i : Nat) :
    List.Sublist (removeFirstDev l i) l := by
  induction l with
  | nil => simp [removeFirstDev]
  | cons d rest ih =>
    by_cases hd : d.devId = i
    · simp only [removeFirstDev, if_pos hd]
      exact List.sublist_cons_self d rest
    · simp only [removeFirstDev, if_neg hd]
      exact List.Sublist.cons₂ d ih

theorem removeFirstDev_eq_self {l : List Device} {i : Nat}
    (h : ∀ x ∈ l, x.devId ≠ i) : removeFirstDev l i = l := by
  induction l with
  | nil => rfl
  | cons d rest ih =>
    have hd : d.devId ≠ i := h d (List.mem_cons_self _ _)
    simp only [removeFirstDev, if_neg hd]
    rw [ih fun x hx => h x (List.mem_cons_of_mem _ hx)]

theorem removeFirstDev_no_id {l : List Device} {i : Nat} {x : Device}
    (hn : (l.map Device.devId).Nodup) (hx : x ∈ removeFirstDev l i) : x.devId ≠ i := by
  induction l with
  | nil => simp [removeFirstDev] at hx
  | cons d rest ih =>
    simp only [List.map_cons, List.nodup_cons] at hn
    by_cases hd : d.devId = i
    · simp only [removeFirstDev, if_pos hd] at hx
      intro hxi
      exact hn.1 (hd ▸ hxi ▸ List.mem_map_of_mem Device.devId hx)
    · simp only [removeFirstDev, if_neg hd, List.mem_cons] at hx
      rcases hx with rfl | hx
      · exact hd
      · exact ih hn.2 hx

theorem mem_removeFirstRecord {l : List PathRecord} {i : Nat} {x : PathRecord}
    (h : x ∈ removeFirstRecord l i) : x ∈ l := by
  induction l with
  | nil => simp [removeFirstRecord] at h
  | cons r rest ih =>
    by_cases hr : r.devnodeId = i
    · simp only [removeFirstRecord, if_pos hr] at h
      exact List.mem_cons_of_mem _ h
    · simp only [removeFirstRecord, if_neg hr, List.mem_cons] at h
      rcases h with h | h
      · exact h ▸ List.mem_cons_self _ _
      · exact List.mem_cons_of_mem _ (ih h)

theorem removeFirstRecord_sublist (l : List PathRecord) (i : Nat) :
    List.Sublist (removeFirstRecord l i) l := by
  induction l with
  | nil => simp [removeFirstRecord]
  | cons r rest ih =>
    by_cases hr : r.devnodeId = i
    · simp only [removeFirstRecord, if_pos hr]
      exact List.sublist_cons_self r rest
    · simp only [removeFirstRecord, if_neg hr]
      exact List.Sublist.cons₂ r ih

theorem removeFirstRecord_eq_self {l : List PathRecord} {i : Nat}
    (h : ∀ x ∈ l, x.devnodeId ≠ i) : removeFirstRecord l i = l := by
  induction l with
  | nil => rfl
  | cons r rest ih =>
    have hr : r.devnodeId ≠ i := h r (List.mem_cons_self _ _)
    simp only [removeFirstRecord, if_neg hr]
    rw [ih fun x hx => h x (List.mem_cons_of_mem _ hx)]

theorem removeFirstRecord_no_id {l : List PathRecord} {i : Nat} {x : PathRecord}
    (hn : (l.map PathRecord.devnodeId).Nodup) (hx : x ∈ removeFirstRecord l i) :
    x.devnodeId ≠ i := by
  induction l with
  | nil => simp [removeFirstRecord] at hx
  | cons r rest ih =>
    simp only [List.map_cons, List.nodup_cons] at hn
    by_cases hr : r.devnodeId = i
    · simp only [removeFirstRecord, if_pos hr] at hx
      intro hxi
      exact hn.1 (hr ▸ hxi ▸ List.mem_map_of_mem PathRecord.devnodeId hx)
    · simp only [removeFirstRecord, if_neg hr, List.mem_cons] at hx
      rcases hx with rfl | hx
      · exact hr
      · exact ih hn.2 hx

theorem removeFirstRecord_mem_other {l : List PathRecord} {i : Nat} {x : PathRecord}
    (hx : x ∈ l) (hne : x.devnodeId ≠ i) : x ∈ removeFirstRecord l i := by
  induction l with
  | nil => simp at hx
  | cons r rest ih =>
    by_cases hr : r.devnodeId = i
    · simp only [removeFirstRecord, if_pos hr]
      rcases List.mem_cons.mp hx with rfl | hx
      · exact absurd hr hne
      · exact hx
    · simp only [removeFirstRecord, if_neg hr, List.mem_cons]
      rcases List.mem_cons.mp hx with rfl | hx
      · exact Or.inl rfl
      · exact Or.inr (ih hx)

/-! ### Seat-operation lemmas -/

theorem seatIds_ref (l : List Seat) (sid : Nat) :
    (libinput_seat_ref l sid).map Seat.seatId = l.map Seat.seatId := by
  induction l with
  | nil => rfl
  | cons st rest ih =>
    simp only [libinput_seat_ref, List.map_cons] at ih ⊢
    by_cases h : st.seatId = sid <;> simp [h, ih]

theorem seatPairs_ref (l : List Seat) (sid : Nat) :
    seatPairs (libinput_seat_ref l sid) = seatPairs l := by
  induction l with
  | nil => rfl
  | cons st rest ih =>
    simp only [libinput_seat_ref, seatPairs, List.map_cons] at ih ⊢
    by_cases h : st.seatId = sid <;> simp [h, ih]

theorem seatDevs_ref (l : List Seat) (sid : Nat) :
    seatDevs (libinput_seat_ref l sid) = seatDevs l := by
  induction l with
  | nil => rfl
  | cons st rest ih =>
    simp only [libinput_seat_ref, seatDevs, List.flatMap_cons] at ih ⊢
    by_cases h : st.seatId = sid <;> simp [h, ih]

theorem mem_ref {l : List Seat} {sid : Nat} {st' : Seat}
    (h : st' ∈ libinput_seat_ref l sid) :
    ∃ st ∈ l, st'.seatId = st.seatId ∧ st'.physical_name = st.physical_name ∧
      st'.logical_name = st.logical_name ∧ st'.devices_list = st.devices_list ∧
      st.refcount ≤ st'.refcount := by
  rcases List.mem_map.mp h with ⟨st, hst, rfl⟩
  refine ⟨st, hst, ?_⟩
  by_cases hid : st.seatId = sid <;> simp [hid]

theorem ref_keeps {l : List Seat} {st : Seat} (sid : Nat) (h : st ∈ l) :
    ∃ st' ∈ libinput_seat_ref l sid, st'.seatId = st.seatId ∧
      st'.physical_name = st.physical_name ∧ st'.logical_name = st.logical_name ∧
      st'.devices_list = st.devices_list ∧ st.refcount ≤ st'.refcount := by
  by_cases hid : st.seatId = sid
  · exact ⟨{ st with refcount := st.refcount + 1 },
      List.mem_map.mpr ⟨st, h, by simp [hid]⟩, by simp⟩
  · exact ⟨st, List.mem_map.mpr ⟨st, h, by simp [hid]⟩, by simp⟩

theorem seatIds_unref_sublist (l : List Seat) (sid : Nat) :
    List.Sublist ((libinput_seat_unref l sid).map Seat.seatId) (l.map Seat.seatId) := by
  induction l with
  | nil => simp [libinput_seat_unref]
  | cons st rest ih =>
    simp only [libinput_seat_unref, List.filterMap_cons] at ih ⊢
    by_cases h : st.seatId = sid
    · by_cases hrc : st.refcount ≤ 1
      · simp only [h, if_pos rfl, if_pos hrc]
        exact ih.trans (List.sublist_cons_self _ _)
      · simp only [h, if_pos rfl, if_neg hrc, List.map_cons]
        exact List.Sublist.cons₂ _ ih
    · simp only [if_neg h, List.map_cons]
      exact List.Sublist.cons₂ _ ih

theorem seatPairs_unref_sublist (l : List Seat) (sid : Nat) :
    List.Sublist (seatPairs (libinput_seat_unref l sid)) (seatPairs l) := by
  induction l with
  | nil => simp [libinput_seat_unref, seatPairs]
  | cons st rest ih =>
    simp only [libinput_seat_unref, seatPairs, List.filterMap_cons] at ih ⊢
    by_cases h : st.seatId = sid
    · by_cases hrc : st.refcount ≤ 1
      · simp only [h, if_pos rfl, if_pos hrc]
        exact ih.trans (List.sublist_cons_self _ _)
      · simp only [h, if_pos rfl, if_neg hrc, List.map_cons]
        exact List.Sublist.cons₂ _ ih
    · simp only [if_neg h, List.map_cons]
      exact List.Sublist.cons₂ _ ih

theorem seatDevs_unref_sublist (l : List Seat) (sid : Nat) :
    List.Sublist (seatDevs (libinput_seat_unref l sid)) (seatDevs l) := by
  induction l with
  | nil => simp [libinput_seat_unref, seatDevs]
  | cons st rest ih =>
    simp only [libinput_seat_unref, seatDevs, List.filterMap_cons, List.flatMap_cons] at ih ⊢
    by_cases h : st.seatId = sid
    · by_cases hrc : st.refcount ≤ 1
      · simp only [h, if_pos rfl, if_pos hrc]
        exact ih.trans (List.sublist_append_right _ _)
      · simp only [h, if_pos rfl, if_neg hrc, seatDevs, List.flatMap_cons]
        exact List.Sublist.append (List.Sublist.refl _) ih
    · simp only [if_neg h, seatDevs, List.flatMap_cons]
      exact List.Sublist.append (List.Sublist.refl _) ih

theorem mem_unref {l : List Seat} {sid : Nat} {st' : Seat}
    (h : st' ∈ libinput_seat_unref l sid) :
    ∃ st ∈ l, st'.seatId = st.seatId ∧ st'.physical_name = st.physical_name ∧
      st'.logical_name = st.logical_name ∧ st'.devices_list = st.devices_list ∧
      st'.refcount ≤ st.refcount ∧ (1 ≤ st.refcount → 1 ≤ st'.refcount) := by
  rcases List.mem_filterMap.mp h with ⟨st, hst, hopt⟩
  by_cases hid : st.seatId = sid
  · by_cases hrc : st.refcount ≤ 1
    · simp [hid, hrc] at hopt
    · rw [if_pos hid, if_neg hrc] at hopt
      have he := Option.some_inj.mp hopt
      subst he
      exact ⟨st, hst, rfl, rfl, rfl, rfl, by simp, fun _ => by simp; omega⟩
  · simp only [if_neg hid] at hopt
    have he := Option.some_inj.mp hopt
    subst he
    exact ⟨st, hst, rfl, rfl, rfl, rfl, Nat.le_refl _, fun h1 => h1⟩

theorem unref_keeps {l : List Seat} {st : Seat} {sid : Nat} (h : st ∈ l)
    (hrc : st.seatId = sid → 2 ≤ st.refcount) :
    ∃ st' ∈ libinput_seat_unref l sid, st'.seatId = st.seatId ∧
      st'.physical_name = st.physical_name ∧ st'.logical_name = st.logical_name ∧
      st'.devices_list = st.devices_list := by
  by_cases hid : st.seatId = sid
  · have h2 := hrc hid
    have hne : ¬ st.refcount ≤ 1 := by omega
    refine ⟨{ st with refcount := st.refcount - 1 },
      List.mem_filterMap.mpr ⟨st, h, by simp [hid, hne]⟩, by simp⟩
  · exact ⟨st, List.mem_filterMap.mpr ⟨st, h, by simp [hid]⟩, rfl, rfl, rfl, rfl⟩

theorem unref_not_mem {l : List Seat} {sid : Nat}
    (h : ∀ st ∈ l, st.seatId ≠ sid) : libinput_seat_unref l sid = l := by
  induction l with
  | nil => rfl
  | cons st rest ih =>
    have hst : st.seatId ≠ sid := h st (List.mem_cons_self _ _)
    simp only [libinput_seat_unref, List.filterMap_cons, if_neg hst] at ih ⊢
    rw [ih fun x hx => h x (List.mem_cons_of_mem _ hx)]

theorem unref_ref_cancel {l : List Seat} {sid : Nat}
    (h : ∀ st ∈ l, 1 ≤ st.refcount) :
    libinput_seat_unref (libinput_seat_ref l sid) sid = l := by
  induction l with
  | nil => rfl
  | cons st rest ih =>
    have hst : 1 ≤ st.refcount := h st (List.mem_cons_self _ _)
    have ih' := ih fun x hx => h x (List.mem_cons_of_mem _ hx)
    obtain ⟨a, pn, ln, rc, dl⟩ := st
    simp only [libinput_seat_ref, libinput_seat_unref, List.map_cons,
      List.filterMap_cons] at ih' hst ⊢
    by_cases hid : a = sid
    · have h2 : ¬ rc + 1 ≤ 1 := by omega
      simp [hid, h2, ih']
    · simp [hid, ih']

theorem seatIds_attach (l : List Seat) (sid : Nat) (d : Device) :
    (seatAttachDevice l sid d).map Seat.seatId = l.map Seat.seatId := by
  induction l with
  | nil => rfl
  | cons st rest ih =>
    simp only [seatAttachDevice, List.map_cons] at ih ⊢
    by_cases h : st.seatId = sid <;> simp [h, ih]

theorem seatPairs_attach (l : List Seat) (sid : Nat) (d : Device) :
    seatPairs (seatAttachDevice l sid d) = seatPairs l := by
  induction l with
  | nil => rfl
  | cons st rest ih =>
    simp only [seatAttachDevice, seatPairs, List.map_cons] at ih ⊢
    by_cases h : st.seatId = sid <;> simp [h, ih]

theorem attach_not_mem {l : List Seat} {sid : Nat} {d : Device}
    (h : ∀ st ∈ l, st.seatId ≠ sid) : seatAttachDevice l sid d = l := by
  induction l with
  | nil => rfl
  | cons st rest ih =>
    have hst : st.seatId ≠ sid := h st (List.mem_cons_self _ _)
    simp only [seatAttachDevice, List.map_cons, if_neg hst] at ih ⊢
    rw [ih fun x hx => h x (List.mem_cons_of_mem _ hx)]

theorem mem_seatDevs_attach {l : List Seat} {sid : Nat} {d : Device} {x : Device}
    (h : x ∈ seatDevs (seatAttachDevice l sid d)) : x = d ∨ x ∈ seatDevs l := by
  induction l with
  | nil => simp [seatAttachDevice, seatDevs] at h
  | cons st rest ih =>
    simp only [seatAttachDevice, seatDevs, List.map_cons, List.flatMap_cons,
      List.mem_append] at h ⊢
    by_cases hid : st.seatId = sid
    · simp only [if_pos hid] at h
      rcases h with h | h
      · rcases List.mem_cons.mp h with rfl | h
        · exact Or.inl rfl
        · exact Or.inr (Or.inl h)
      · rcases ih h with h | h
        · exact Or.inl h
        · exact Or.inr (Or.inr h)
    · simp only [if_neg hid] at h
      rcases h with h | h
      · exact Or.inr (Or.inl h)
      · rcases ih h with h | h
        · exact Or.inl h
        · exact Or.inr (Or.inr h)

theorem seatDevs_attach_perm {l : List Seat} {sid : Nat} (d : Device)
    (hn : (l.map Seat.seatId).Nodup) (hm : sid ∈ l.map Seat.seatId) :
    List.Perm (seatDevs (seatAttachDevice l sid d)) (d :: seatDevs l) := by
  induction l with
  | nil => simp at hm
  | cons st rest ih =>
    simp only [List.map_cons, List.nodup_cons] at hn
    have hcons : seatAttachDevice (st :: rest) sid d =
        (if st.seatId = sid then
          { st with devices_list := d :: st.devices_list, refcount := st.refcount + 1 }
        else st) :: seatAttachDevice rest sid d := rfl
    by_cases hid : st.seatId = sid
    · have hrest : ∀ x ∈ rest, x.seatId ≠ sid := by
        intro x hx hxe
        exact hn.1 (hid ▸ hxe ▸ List.mem_map_of_mem Seat.seatId hx)
      rw [hcons, if_pos hid, attach_not_mem hrest]
      simp only [seatDevs, List.flatMap_cons, List.cons_append]
      exact List.Perm.refl _
    · have hm' : sid ∈ rest.map Seat.seatId := by
        rcases List.mem_cons.mp hm with h | h
        · exact absurd h.symm hid
        · exact h
      rw [hcons, if_neg hid]
      simp only [seatDevs, List.flatMap_cons]
      exact List.Perm.trans (List.Perm.append_left st.devices_list (ih hn.2 hm')) List.perm_middle

/-! ### Closed forms for `path_device_enable` -/

theorem get_named_some {s : PathInput} {phys lg : String} {st : Seat}
    (h : path_seat_get_named s phys lg = some st) :
    st ∈ s.seat_list ∧ st.physical_name = phys ∧ st.logical_name = lg := by
  refine ⟨List.mem_of_find?_eq_some h, ?_⟩
  have hp := List.find?_some h
  simpa using hp

theorem get_named_none {s : PathInput} {phys lg : String}
    (h : path_seat_get_named s phys lg = none) :
    ∀ st ∈ s.seat_list, ¬(st.physical_name = phys ∧ st.logical_name = lg) := by
  intro st hst
  have := List.find?_eq_none.mp h st hst
  simpa using this

theorem resolve_found {s : PathInput} {lg : String} {st : Seat}
    (h : path_seat_get_named s default_seat lg = some st) :
    enableResolveSeat s lg =
      ({ s with seat_list := libinput_seat_ref s.seat_list st.seatId }, st.seatId) := by
  simp [enableResolveSeat, h]

theorem resolve_none {s : PathInput} {lg : String}
    (h : path_seat_get_named s default_seat lg = none) :
    enableResolveSeat s lg =
      ({ s with
          seat_list := ({ seatId := s.nextId, physical_name := default_seat,
                          logical_name := lg, refcount := 1,
                          devices_list := [] } : Seat) :: s.seat_list,
          nextId := s.nextId + 1 }, s.nextId) := by
  simp [enableResolveSeat, h]

theorem ref_cons (st : Seat) (l : List Seat) (sid : Nat) :
    libinput_seat_ref (st :: l) sid =
      (if st.seatId = sid then { st with refcount := st.refcount + 1 } else st) ::
        libinput_seat_ref l sid := rfl

theorem attach_cons (st : Seat) (l : List Seat) (sid : Nat) (d : Device) :
    seatAttachDevice (st :: l) sid d =
      (if st.seatId = sid then
        { st with devices_list := d :: st.devices_list, refcount := st.refcount + 1 }
      else st) :: seatAttachDevice l sid d := rfl

theorem unref_cons (st : Seat) (l : List Seat) (sid : Nat) :
    libinput_seat_unref (st :: l) sid =
      (if st.seatId = sid then
        (if st.refcount ≤ 1 then [] else [{ st with refcount := st.refcount - 1 }])
      else [st]) ++ libinput_seat_unref l sid := by
  simp only [libinput_seat_unref, List.filterMap_cons]
  by_cases h : st.seatId = sid
  · by_cases h2 : st.refcount ≤ 1 <;> simp [h, h2]
  · simp [h]

theorem unref_cons_keep {l : List Seat} {sid : Nat} {st : Seat}
    (hid : st.seatId = sid) (hrc : ¬ st.refcount ≤ 1) :
    libinput_seat_unref (st :: l) sid =
      { st with refcount := st.refcount - 1 } :: libinput_seat_unref l sid := by
  simp only [libinput_seat_unref, List.filterMap_cons, if_pos hid, if_neg hrc]

theorem unref_cons_drop {l : List Seat} {sid : Nat} {st : Seat}
    (hid : st.seatId = sid) (hrc : st.refcount ≤ 1) :
    libinput_seat_unref (st :: l) sid = libinput_seat_unref l sid := by
  simp only [libinput_seat_unref, List.filterMap_cons, if_pos hid, if_pos hrc]

theorem unref_attach_ref (l : List Seat) (sid : Nat) (d : Device) :
    libinput_seat_unref (seatAttachDevice (libinput_seat_ref l sid) sid d) sid =
      seatAttachDevice l sid d := by
  induction l with
  | nil => rfl
  | cons st rest ih =>
    by_cases hid : st.seatId = sid
    · simp [ref_cons, attach_cons, unref_cons, hid, ih]
    · simp [ref_cons, attach_cons, unref_cons, hid, ih]

theorem unref_attach_cons_fresh {l : List Seat} {sid : Nat} {d : Device} {new : Seat}
    (hid : new.seatId = sid) (hrc : new.refcount = 1)
    (hfresh : ∀ x ∈ l, x.seatId ≠ sid) :
    libinput_seat_unref (seatAttachDevice (new :: l) sid d) sid =
      { new with devices_list := d :: new.devices_list } :: l := by
  have h1 : seatAttachDevice (new :: l) sid d =
      { new with devices_list := d :: new.devices_list, refcount := new.refcount + 1 }
        :: l := by
    have hcons : seatAttachDevice (new :: l) sid d =
        (if new.seatId = sid then
          { new with devices_list := d :: new.devices_list, refcount := new.refcount + 1 }
        else new) :: seatAttachDevice l sid d := rfl
    rw [hcons, if_pos hid, attach_not_mem hfresh]
  rw [h1, unref_cons_keep (by simpa using hid) (by simp [hrc]), unref_not_mem hfresh]
  simp [hrc]

/-- The device object created for a record when the resolved seat and the
fresh identity are known. -/
def mkDev (devId : Nat) (dev : PathRecord) (sid : Nat) : Device :=
  { devId := devId, devnodeId := dev.devnodeId, devnode := dev.devnode,
    sysname := dev.sysname, seatId := sid }

theorem enable_found_created {A : Adapter} {s : PathInput} {dev : PathRecord}
    {ov : Option String} {st : Seat}
    (hf : path_seat_get_named s default_seat (ov.getD default_seat_name) = some st)
    (hA : A default_seat (ov.getD default_seat_name) dev.devnode dev.sysname =
      AdapterResult.created) :
    path_device_enable A s dev ov =
      ({ s with
          seat_list := seatAttachDevice s.seat_list st.seatId (mkDev s.nextId dev st.seatId),
          nextId := s.nextId + 1 },
        some (mkDev s.nextId dev st.seatId)) := by
  simp only [path_device_enable, resolve_found hf, enableAdapterStep, hA, mkDev]
  rw [unref_attach_ref]

theorem enable_found_fail {A : Adapter} {s : PathInput} {dev : PathRecord}
    {ov : Option String} {st : Seat}
    (hf : path_seat_get_named s default_seat (ov.getD default_seat_name) = some st)
    (hrp : ∀ x ∈ s.seat_list, 1 ≤ x.refcount)
    (hA : A default_seat (ov.getD default_seat_name) dev.devnode dev.sysname =
        AdapterResult.unhandled ∨
      A default_seat (ov.getD default_seat_name) dev.devnode dev.sysname =
        AdapterResult.failed) :
    path_device_enable A s dev ov = (s, none) := by
  rcases hA with hA | hA <;>
  · simp only [path_device_enable, resolve_found hf, enableAdapterStep, hA]
    rw [unref_ref_cancel hrp]

theorem enable_none_created {A : Adapter} {s : PathInput} {dev : PathRecord}
    {ov : Option String}
    (hf : path_seat_get_named s default_seat (ov.getD default_seat_name) = none)
    (hfresh : ∀ x ∈ s.seat_list, x.seatId ≠ s.nextId)
    (hA : A default_seat (ov.getD default_seat_name) dev.devnode dev.sysname =
      AdapterResult.created) :
    path_device_enable A s dev ov =
      ({ s with
          seat_list :=
            ({ seatId := s.nextId, physical_name := default_seat,
               logical_name := ov.getD default_seat_name, refcount := 1,
               devices_list := [mkDev (s.nextId + 1) dev s.nextId] } : Seat) :: s.seat_list,
          nextId := s.nextId + 2 },
        some (mkDev (s.nextId + 1) dev s.nextId)) := by
  simp only [path_device_enable, resolve_none hf, enableAdapterStep, hA, mkDev]
  rw [unref_attach_cons_fresh rfl rfl hfresh]

theorem enable_none_fail {A : Adapter} {s : PathInput} {dev : PathRecord}
    {ov : Option String}
    (hf : path_seat_get_named s default_seat (ov.getD default_seat_name) = none)
    (hfresh : ∀ x ∈ s.seat_list, x.seatId ≠ s.nextId)
    (hA : A default_seat (ov.getD default_seat_name) dev.devnode dev.sysname =
        AdapterResult.unhandled ∨
      A default_seat (ov.getD default_seat_name) dev.devnode dev.sysname =
        AdapterResult.failed) :
    path_device_enable A s dev ov = ({ s with nextId := s.nextId + 1 }, none) := by
  rcases hA with hA | hA <;>
  · simp only [path_device_enable, resolve_none hf, enableAdapterStep, hA]
    rw [unref_cons_drop rfl (by simp), unref_not_mem hfresh]

theorem enable_path_list (A : Adapter) (s : PathInput) (dev : PathRecord)
    (ov : Option String) : (path_device_enable A s dev ov).1.path_list = s.path_list := by
  simp only [path_device_enable]
  cases hf : path_seat_get_named s default_seat (ov.getD default_seat_name) with
  | none =>
    rw [resolve_none hf]
    cases hA : A default_seat (ov.getD default_seat_name) dev.devnode dev.sysname <;>
      simp [enableAdapterStep, hA]
  | some st =>
    rw [resolve_found hf]
    cases hA : A default_seat (ov.getD default_seat_name) dev.devnode dev.sysname <;>
      simp [enableAdapterStep, hA]

theorem enable_nextId_le (A : Adapter) (s : PathInput) (dev : PathRecord)
    (ov : Option String) : s.nextId ≤ (path_device_enable A s dev ov).1.nextId := by
  simp only [path_device_enable]
  cases hf : path_seat_get_named s default_seat (ov.getD default_seat_name) with
  | none =>
    rw [resolve_none hf]
    cases hA : A default_seat (ov.getD default_seat_name) dev.devnode dev.sysname
    · simp only [enableAdapterStep, hA]
      omega
    · simp only [enableAdapterStep, hA]
      omega
    · simp only [enableAdapterStep, hA]
      omega
  | some st =>
    rw [resolve_found hf]
    cases hA : A default_seat (ov.getD default_seat_name) dev.devnode dev.sysname <;>
      simp [enableAdapterStep, hA]

/-! ### Invariant preservation for `path_device_enable` -/

theorem seatDevs_nil : seatDevs [] = [] := rfl

theorem seatDevs_cons (st : Seat) (l : List Seat) :
    seatDevs (st :: l) = st.devices_list ++ seatDevs l := rfl

theorem inv_nextId_mono {P : String → Prop} {s : PathInput} {n : Nat}
    (hI : Inv P s) (hn : s.nextId ≤ n) : Inv P { s with nextId := n } := by
  refine ⟨hI.seatIdsNodup, ?_, hI.pairsNodup, hI.refPos, hI.backRef, hI.devIdsNodup,
    ?_, ?_, hI.devP, hI.recIdsNodup, ?_, hI.recP⟩
  · intro st hst
    exact lt_of_lt_of_le (hI.seatIdsLt st hst) hn
  · intro d hd
    exact lt_of_lt_of_le (hI.devIdsLt d hd) hn
  · intro d hd
    exact lt_of_lt_of_le (hI.devRecIdLt d hd) hn
  · intro r hr
    exact lt_of_lt_of_le (hI.recIdsLt r hr) hn

theorem inv_fresh_sid {P : String → Prop} {s : PathInput} (hI : Inv P s) :
    ∀ x ∈ s.seat_list, x.seatId ≠ s.nextId := by
  intro x hx he
  exact absurd (he ▸ hI.seatIdsLt x hx) (lt_irrefl _)

theorem mem_attach {l : List Seat} {sid : Nat} {d : Device} {st' : Seat}
    (h : st' ∈ seatAttachDevice l sid d) :
    ∃ st ∈ l, st'.seatId = st.seatId ∧ st'.physical_name = st.physical_name ∧
      st'.logical_name = st.logical_name ∧ st.refcount ≤ st'.refcount ∧
      (st'.devices_list = st.devices_list ∨
        (st'.devices_list = d :: st.devices_list ∧ st.seatId = sid)) := by
  rcases List.mem_map.mp h with ⟨st, hst, rfl⟩
  by_cases hid : st.seatId = sid
  · refine ⟨st, hst, ?_⟩
    simp [hid]
  · refine ⟨st, hst, ?_⟩
    simp [hid]

theorem attach_keeps {l : List Seat} {st : Seat} (sid : Nat) (d : Device) (h : st ∈ l) :
    ∃ st' ∈ seatAttachDevice l sid d, st'.seatId = st.seatId ∧
      st'.physical_name = st.physical_name ∧ st'.logical_name = st.logical_name ∧
      ∀ x ∈ st.devices_list, x ∈ st'.devices_list := by
  by_cases hid : st.seatId = sid
  · refine ⟨{ st with devices_list := d :: st.devices_list, refcount := st.refcount + 1 },
      List.mem_map.mpr ⟨st, h, by simp [hid]⟩, by simp, by simp, by simp, ?_⟩
    intro x hx
    exact List.mem_cons_of_mem _ hx
  · exact ⟨st, List.mem_map.mpr ⟨st, h, by simp [hid]⟩, rfl, rfl, rfl, fun x hx => hx⟩

theorem inv_attach {P : String → Prop} {s : PathInput} {dev : PathRecord} {st0 : Seat}
    (hI : Inv P s) (hst0 : st0 ∈ s.seat_list) (hP : P dev.devnode)
    (hlt : dev.devnodeId < s.nextId) :
    Inv P { s with
      seat_list := seatAttachDevice s.seat_list st0.seatId (mkDev s.nextId dev st0.seatId),
      nextId := s.nextId + 1 } := by
  have hperm := seatDevs_attach_perm (l := s.seat_list)
    (mkDev s.nextId dev st0.seatId) hI.seatIdsNodup
    (List.mem_map_of_mem Seat.seatId hst0)
  refine ⟨?_, ?_, ?_, ?_, ?_, ?_, ?_, ?_, ?_, hI.recIdsNodup, ?_, hI.recP⟩
  · simpa [seatIds_attach] using hI.seatIdsNodup
  · intro st hst
    rcases mem_attach hst with ⟨st1, hst1, hid, -, -, -, -⟩
    exact hid ▸ Nat.lt_succ_of_lt (hI.seatIdsLt st1 hst1)
  · simpa [seatPairs_attach] using hI.pairsNodup
  · intro st hst
    rcases mem_attach hst with ⟨st1, hst1, -, -, -, hrc, -⟩
    exact le_trans (hI.refPos st1 hst1) hrc
  · intro st hst x hx
    rcases mem_attach hst with ⟨st1, hst1, hid, -, -, -, hdl⟩
    rcases hdl with hdl | ⟨hdl, hsid⟩
    · exact hid ▸ hI.backRef st1 hst1 x (hdl ▸ hx)
    · rcases List.mem_cons.mp (hdl ▸ hx) with rfl | hx'
      · simp [mkDev, hid, hsid]
      · exact hid ▸ hI.backRef st1 hst1 x hx'
  · rw [List.Perm.nodup_iff (List.Perm.map Device.devId hperm)]
    simp only [List.map_cons, List.nodup_cons]
    refine ⟨fun hmem => ?_, hI.devIdsNodup⟩
    rcases List.mem_map.mp hmem with ⟨x, hx, hxe⟩
    have := hI.devIdsLt x hx
    simp only [mkDev] at hxe
    omega
  · intro x hx
    rcases mem_seatDevs_attach hx with rfl | hx'
    · simp [mkDev]
    · exact Nat.lt_succ_of_lt (hI.devIdsLt x hx')
  · intro x hx
    rcases mem_seatDevs_attach hx with rfl | hx'
    · simpa [mkDev] using Nat.lt_succ_of_lt hlt
    · exact Nat.lt_succ_of_lt (hI.devRecIdLt x hx')
  · intro x hx
    rcases mem_seatDevs_attach hx with rfl | hx'
    · simpa [mkDev] using hP
    · exact hI.devP x hx'
  · intro r hr
    exact Nat.lt_succ_of_lt (hI.recIdsLt r hr)

theorem inv_cons_new {P : String → Prop} {s : PathInput} {dev : PathRecord} {lg : String}
    (hI : Inv P s) (hP : P dev.devnode) (hlt : dev.devnodeId < s.nextId)
    (hpair : ∀ st ∈ s.seat_list,
      ¬(st.physical_name = default_seat ∧ st.logical_name = lg)) :
    Inv P { s with
      seat_list := ({ seatId := s.nextId, physical_name := default_seat,
                      logical_name := lg, refcount := 1,
                      devices_list := [mkDev (s.nextId + 1) dev s.nextId] } : Seat)
        :: s.seat_list,
      nextId := s.nextId + 2 } := by
  refine ⟨?_, ?_, ?_, ?_, ?_, ?_, ?_, ?_, ?_, hI.recIdsNodup, ?_, hI.recP⟩
  · simp only [List.map_cons, List.nodup_cons]
    refine ⟨fun hmem => ?_, hI.seatIdsNodup⟩
    rcases List.mem_map.mp hmem with ⟨x, hx, hxe⟩
    exact absurd (hxe ▸ hI.seatIdsLt x hx) (lt_irrefl _)
  · intro st hst
    show st.seatId < s.nextId + 2
    rcases List.mem_cons.mp hst with rfl | hst
    · simp
    · have := hI.seatIdsLt st hst
      omega
  · simp only [seatPairs, List.map_cons, List.nodup_cons]
    refine ⟨fun hmem => ?_, hI.pairsNodup⟩
    rcases List.mem_map.mp hmem with ⟨x, hx, hxe⟩
    exact hpair x hx ⟨congrArg Prod.fst hxe, congrArg Prod.snd hxe⟩
  · intro st hst
    rcases List.mem_cons.mp hst with rfl | hst
    · simp
    · exact hI.refPos st hst
  · intro st hst x hx
    rcases List.mem_cons.mp hst with rfl | hst
    · simp only [List.mem_singleton] at hx
      simp [hx, mkDev]
    · exact hI.backRef st hst x hx
  · show ((seatDevs (_ :: s.seat_list)).map Device.devId).Nodup
    rw [seatDevs_cons]
    simp only [List.singleton_append, List.map_cons, List.nodup_cons]
    refine ⟨fun hmem => ?_, hI.devIdsNodup⟩
    rcases List.mem_map.mp hmem with ⟨x, hx, hxe⟩
    have := hI.devIdsLt x hx
    simp only [mkDev] at hxe
    omega
  · intro x hx
    show x.devId < s.nextId + 2
    rw [seatDevs_cons] at hx
    simp only [List.singleton_append, List.mem_cons] at hx
    rcases hx with rfl | hx
    · simp only [mkDev]
      omega
    · have := hI.devIdsLt x hx
      omega
  · intro x hx
    show x.devnodeId < s.nextId + 2
    rw [seatDevs_cons] at hx
    simp only [List.singleton_append, List.mem_cons] at hx
    rcases hx with rfl | hx
    · simp only [mkDev]
      omega
    · have := hI.devRecIdLt x hx
      omega
  · intro x hx
    rw [seatDevs_cons] at hx
    simp only [List.singleton_append, List.mem_cons] at hx
    rcases hx with rfl | hx
    · simpa [mkDev] using hP
    · exact hI.devP x hx
  · intro r hr
    show r.devnodeId < s.nextId + 2
    have := hI.recIdsLt r hr
    omega

theorem enable_preserves_inv {P : String → Prop} {s : PathInput} (hI : Inv P s)
    (A : Adapter) (dev : PathRecord) (ov : Option String) (hP : P dev.devnode)
    (hlt : dev.devnodeId < s.nextId) :
    Inv P (path_device_enable A s dev ov).1 := by
  cases hf : path_seat_get_named s default_seat (ov.getD default_seat_name) with
  | some st =>
    cases hA : A default_seat (ov.getD default_seat_name) dev.devnode dev.sysname with
    | created =>
      rw [enable_found_created hf hA]
      exact inv_attach hI (get_named_some hf).1 hP hlt
    | unhandled =>
      rw [enable_found_fail hf hI.refPos (Or.inl hA)]
      exact hI
    | failed =>
      rw [enable_found_fail hf hI.refPos (Or.inr hA)]
      exact hI
  | none =>
    cases hA : A default_seat (ov.getD default_seat_name) dev.devnode dev.sysname with
    | created =>
      rw [enable_none_created hf (inv_fresh_sid hI) hA]
      exact inv_cons_new hI hP hlt (get_named_none hf)
    | unhandled =>
      rw [enable_none_fail hf (inv_fresh_sid hI) (Or.inl hA)]
      exact inv_nextId_mono hI (Nat.le_succ _)
    | failed =>
      rw [enable_none_fail hf (inv_fresh_sid hI) (Or.inr hA)]
      exact inv_nextId_mono hI (Nat.le_succ _)

/-! ### The disable side: registry-shrinking steps -/

/-- One registry list shrinks to another: seats may lose devices or be
destroyed, but no seat changes identity or names, no device appears, and
a live seat stays live. -/
structure Shrinks (l l' : List Seat) : Prop where
  ids : List.Sublist (l'.map Seat.seatId) (l.map Seat.seatId)
  pairs : List.Sublist (seatPairs l') (seatPairs l)
  devs : List.Sublist (seatDevs l') (seatDevs l)
  mem : ∀ st' ∈ l', ∃ st ∈ l, st'.seatId = st.seatId ∧
    st'.physical_name = st.physical_name ∧ st'.logical_name = st.logical_name ∧
    List.Sublist st'.devices_list st.devices_list ∧
    (1 ≤ st.refcount → 1 ≤ st'.refcount)

theorem Shrinks.refl (l : List Seat) : Shrinks l l :=
  ⟨List.Sublist.refl _, List.Sublist.refl _, List.Sublist.refl _,
    fun st' h => ⟨st', h, rfl, rfl, rfl, List.Sublist.refl _, fun h1 => h1⟩⟩

theorem Shrinks.trans {l1 l2 l3 : List Seat} (h12 : Shrinks l1 l2)
    (h23 : Shrinks l2 l3) : Shrinks l1 l3 := by
  refine ⟨h23.ids.trans h12.ids, h23.pairs.trans h12.pairs, h23.devs.trans h12.devs, ?_⟩
  intro st' h'
  rcases h23.mem st' h' with ⟨st2, h2, e1, e2, e3, e4, e5⟩
  rcases h12.mem st2 h2 with ⟨st1, h1, f1, f2, f3, f4, f5⟩
  exact ⟨st1, h1, e1.trans f1, e2.trans f2, e3.trans f3, e4.trans f4,
    fun hp => e5 (f5 hp)⟩

theorem shrinks_ref (l : List Seat) (sid : Nat) :
    Shrinks l (libinput_seat_ref l sid) := by
  refine ⟨(seatIds_ref l sid).symm ▸ List.Sublist.refl _,
    (seatPairs_ref l sid).symm ▸ List.Sublist.refl _,
    (seatDevs_ref l sid).symm ▸ List.Sublist.refl _, ?_⟩
  intro st' h'
  rcases mem_ref h' with ⟨st, hst, e1, e2, e3, e4, e5⟩
  exact ⟨st, hst, e1, e2, e3, e4 ▸ List.Sublist.refl _, fun hp => le_trans hp e5⟩

theorem shrinks_unref (l : List Seat) (sid : Nat) :
    Shrinks l (libinput_seat_unref l sid) := by
  refine ⟨seatIds_unref_sublist l sid, seatPairs_unref_sublist l sid,
    seatDevs_unref_sublist l sid, ?_⟩
  intro st' h'
  rcases mem_unref h' with ⟨st, hst, e1, e2, e3, e4, _, e6⟩
  exact ⟨st, hst, e1, e2, e3, e4 ▸ List.Sublist.refl _, e6⟩

/-- The device-unlinking step of `evdev_device_remove`, as a registry
map: the seat with the given identity loses the first device with the
given device identity. -/
def removeDevMap (l : List Seat) (sid i : Nat) : List Seat :=
  l.map fun st => if st.seatId = sid then
    { st with devices_list := removeFirstDev st.devices_list i } else st

theorem evdev_device_remove_eq (s : PathInput) (d : Device) :
    evdev_device_remove s d =
      { s with seat_list :=
          libinput_seat_unref (removeDevMap s.seat_list d.seatId d.devId) d.seatId } := rfl

theorem seatIds_removeDevMap (l : List Seat) (sid i : Nat) :
    (removeDevMap l sid i).map Seat.seatId = l.map Seat.seatId := by
  induction l with
  | nil => rfl
  | cons st rest ih =>
    simp only [removeDevMap, List.map_cons] at ih ⊢
    by_cases h : st.seatId = sid <;> simp [h, ih]

theorem seatPairs_removeDevMap (l : List Seat) (sid i : Nat) :
    seatPairs (removeDevMap l sid i) = seatPairs l := by
  induction l with
  | nil => rfl
  | cons st rest ih =>
    simp only [removeDevMap, seatPairs, List.map_cons] at ih ⊢
    by_cases h : st.seatId = sid <;> simp [h, ih]

theorem seatDevs_removeDevMap_sublist (l : List Seat) (sid i : Nat) :
    List.Sublist (seatDevs (removeDevMap l sid i)) (seatDevs l) := by
  induction l with
  | nil => simp [removeDevMap, seatDevs]
  | cons st rest ih =>
    simp only [removeDevMap, List.map_cons, seatDevs_cons] at ih ⊢
    by_cases h : st.seatId = sid
    · simp only [h, if_pos rfl]
      exact List.Sublist.append (by simpa using removeFirstDev_sublist st.devices_list i) ih
    · simp only [if_neg h]
      exact List.Sublist.append (List.Sublist.refl _) ih

theorem shrinks_removeDevMap (l : List Seat) (sid i : Nat) :
    Shrinks l (removeDevMap l sid i) := by
  refine ⟨(seatIds_removeDevMap l sid i).symm ▸ List.Sublist.refl _,
    (seatPairs_removeDevMap l sid i).symm ▸ List.Sublist.refl _,
    seatDevs_removeDevMap_sublist l sid i, ?_⟩
  intro st' h'
  rcases List.mem_map.mp h' with ⟨x, hx, rfl⟩
  by_cases h : x.seatId = sid
  · exact ⟨x, hx, by simp [h], by simp [h], by simp [h],
      by simpa [h] using removeFirstDev_sublist x.devices_list i, by simp [h]⟩
  · exact ⟨x, hx, by simp [h], by simp [h], by simp [h], by simp [h], by simp [h]⟩

theorem shrinks_evdev_remove (s : PathInput) (d : Device) :
    Shrinks s.seat_list (evdev_device_remove s d).seat_list := by
  rw [evdev_device_remove_eq]
  exact (shrinks_removeDevMap s.seat_list d.seatId d.devId).trans (shrinks_unref _ d.seatId)

theorem shrinks_disable_device (s : PathInput) (d : Device) :
    Shrinks s.seat_list (path_disable_device s d).seat_list := by
  unfold path_disable_device
  cases s.seat_list.find? (fun st => st.seatId = d.seatId) with
  | none => exact Shrinks.refl _
  | some seat =>
    by_cases h : seat.devices_list.any (fun x => x.devId = d.devId)
    · simpa [h] using shrinks_evdev_remove s d
    · simpa [h] using Shrinks.refl s.seat_list

theorem disable_device_frame (s : PathInput) (d : Device) :
    (path_disable_device s d).path_list = s.path_list ∧
      (path_disable_device s d).nextId = s.nextId := by
  unfold path_disable_device
  cases s.seat_list.find? (fun st => st.seatId = d.seatId) with
  | none => exact ⟨rfl, rfl⟩
  | some seat =>
    by_cases h : seat.devices_list.any (fun x => x.devId = d.devId)
    · simp [h, evdev_device_remove]
    · simp [h]

theorem shrinks_disableSeatDevices (s : PathInput) (ds : List Device) :
    Shrinks s.seat_list (disableSeatDevices s ds).seat_list := by
  induction ds generalizing s with
  | nil => exact Shrinks.refl _
  | cons d rest ih =>
    exact (shrinks_disable_device s d).trans (ih (path_disable_device s d))

theorem disableSeatDevices_frame (s : PathInput) (ds : List Device) :
    (disableSeatDevices s ds).path_list = s.path_list ∧
      (disableSeatDevices s ds).nextId = s.nextId := by
  induction ds generalizing s with
  | nil => exact ⟨rfl, rfl⟩
  | cons d rest ih =>
    rcases ih (path_disable_device s d) with ⟨h1, h2⟩
    rcases disable_device_frame s d with ⟨h3, h4⟩
    exact ⟨h1.trans h3, h2.trans h4⟩

theorem shrinks_disable_seat (s : PathInput) (sid : Nat) :
    Shrinks s.seat_list (path_input_disable_seat s sid).seat_list := by
  unfold path_input_disable_seat
  cases s.seat_list.find? (fun st => st.seatId = sid) with
  | none => exact Shrinks.refl _
  | some seat =>
    refine ((shrinks_ref s.seat_list sid).trans ?_).trans (shrinks_unref _ sid)
    exact shrinks_disableSeatDevices
      { s with seat_list := libinput_seat_ref s.seat_list sid } seat.devices_list

theorem disable_seat_frame (s : PathInput) (sid : Nat) :
    (path_input_disable_seat s sid).path_list = s.path_list ∧
      (path_input_disable_seat s sid).nextId = s.nextId := by
  unfold path_input_disable_seat
  cases s.seat_list.find? (fun st => st.seatId = sid) with
  | none => exact ⟨rfl, rfl⟩
  | some seat =>
    rcases disableSeatDevices_frame
      { s with seat_list := libinput_seat_ref s.seat_list sid } seat.devices_list with ⟨h1, h2⟩
    exact ⟨h1, h2⟩

theorem shrinks_disable_fold (s : PathInput) (sids : List Nat) :
    Shrinks s.seat_list (sids.foldl path_input_disable_seat s).seat_list := by
  induction sids generalizing s with
  | nil => exact Shrinks.refl _
  | cons sid rest ih =>
    exact (shrinks_disable_seat s sid).trans (ih (path_input_disable_seat s sid))

theorem disable_fold_frame (s : PathInput) (sids : List Nat) :
    (sids.foldl path_input_disable_seat s).path_list = s.path_list ∧
      (sids.foldl path_input_disable_seat s).nextId = s.nextId := by
  induction sids generalizing s with
  | nil => exact ⟨rfl, rfl⟩
  | cons sid rest ih =>
    rcases ih (path_input_disable_seat s sid) with ⟨h1, h2⟩
    rcases disable_seat_frame s sid with ⟨h3, h4⟩
    exact ⟨h1.trans h3, h2.trans h4⟩

theorem shrinks_input_disable (s : PathInput) :
    Shrinks s.seat_list (path_input_disable s).seat_list :=
  shrinks_disable_fold s _

theorem input_disable_frame (s : PathInput) :
    (path_input_disable s).path_list = s.path_list ∧
      (path_input_disable s).nextId = s.nextId :=
  disable_fold_frame s _

theorem inv_of_shrinks {P : String → Prop} {s : PathInput} {l' : List Seat}
    (hI : Inv P s) (hS : Shrinks s.seat_list l') :
    Inv P { s with seat_list := l' } := by
  refine ⟨hI.seatIdsNodup.sublist hS.ids, ?_, hI.pairsNodup.sublist hS.pairs, ?_, ?_,
    hI.devIdsNodup.sublist (hS.devs.map Device.devId), ?_, ?_, ?_,
    hI.recIdsNodup, hI.recIdsLt, hI.recP⟩
  · intro st hst
    rcases hS.mem st hst with ⟨st1, h1, e1, -, -, -, -⟩
    exact e1 ▸ hI.seatIdsLt st1 h1
  · intro st hst
    rcases hS.mem st hst with ⟨st1, h1, -, -, -, -, e5⟩
    exact e5 (hI.refPos st1 h1)
  · intro st hst x hx
    rcases hS.mem st hst with ⟨st1, h1, e1, -, -, e4, -⟩
    exact e1 ▸ hI.backRef st1 h1 x (e4.mem hx)
  · intro x hx
    exact hI.devIdsLt x (hS.devs.mem hx)
  · intro x hx
    exact hI.devRecIdLt x (hS.devs.mem hx)
  · intro x hx
    exact hI.devP x (hS.devs.mem hx)

theorem eq_setSeatList {s s' : PathInput} (hp : s'.path_list = s.path_list)
    (hn : s'.nextId = s.nextId) : s' = { s with seat_list := s'.seat_list } := by
  cases s'
  cases s
  simp_all

theorem inv_input_disable {P : String → Prop} {s : PathInput} (hI : Inv P s) :
    Inv P (path_input_disable s) := by
  rcases input_disable_frame s with ⟨h1, h2⟩
  rw [eq_setSeatList h1 h2]
  exact inv_of_shrinks hI (shrinks_input_disable s)

/-! ### Suspend empties every seat -/

/-- No device with the given identity is attached to any seat. -/
def DevIdAbsent (l : List Seat) (i : Nat) : Prop :=
  ∀ st ∈ l, ∀ x ∈ st.devices_list, x.devId ≠ i

/-- The structural part of the invariant needed by the suspend sweep. -/
structure SeatWF (l : List Seat) : Prop where
  idsNodup : (l.map Seat.seatId).Nodup
  backRef : ∀ st ∈ l, ∀ d ∈ st.devices_list, d.seatId = st.seatId
  devIdsNodup : ((seatDevs l).map Device.devId).Nodup

theorem SeatWF.ofInv {P : String → Prop} {s : PathInput} (hI : Inv P s) :
    SeatWF s.seat_list :=
  ⟨hI.seatIdsNodup, hI.backRef, hI.devIdsNodup⟩

theorem seatWF_of_shrinks {l l' : List Seat} (hW : SeatWF l) (hS : Shrinks l l') :
    SeatWF l' := by
  refine ⟨hW.idsNodup.sublist hS.ids, ?_, hW.devIdsNodup.sublist (hS.devs.map _)⟩
  intro st hst x hx
  rcases hS.mem st hst with ⟨st1, h1, e1, -, -, e4, -⟩
  exact e1 ▸ hW.backRef st1 h1 x (e4.mem hx)

theorem mem_seatDevs_of {l : List Seat} {st : Seat} {x : Device}
    (hst : st ∈ l) (hx : x ∈ st.devices_list) : x ∈ seatDevs l := by
  induction l with
  | nil => simp at hst
  | cons st0 rest ih =>
    rw [seatDevs_cons]
    rcases List.mem_cons.mp hst with rfl | hst
    · exact List.mem_append_left _ hx
    · exact List.mem_append_right _ (ih hst)

theorem devices_sublist_seatDevs {l : List Seat} {st : Seat} (hst : st ∈ l) :
    List.Sublist st.devices_list (seatDevs l) := by
  induction l with
  | nil => simp at hst
  | cons st0 rest ih =>
    rw [seatDevs_cons]
    rcases List.mem_cons.mp hst with rfl | hst
    · exact List.sublist_append_left _ _
    · exact (ih hst).trans (List.sublist_append_right _ _)

theorem absent_of_shrinks {l l' : List Seat} {i : Nat} (hS : Shrinks l l')
    (h : DevIdAbsent l i) : DevIdAbsent l' i := by
  intro st hst x hx
  rcases hS.mem st hst with ⟨st1, h1, -, -, -, e4, -⟩
  exact h st1 h1 x (e4.mem hx)

theorem empties_of_shrinks {l l' : List Seat} {sid : Nat} (hS : Shrinks l l')
    (h : ∀ st ∈ l, st.seatId = sid → st.devices_list = []) :
    ∀ st ∈ l', st.seatId = sid → st.devices_list = [] := by
  intro st hst hste
  rcases hS.mem st hst with ⟨st1, h1, e1, -, -, e4, -⟩
  have := h st1 h1 (hste ▸ e1.symm)
  rw [this] at e4
  exact List.sublist_nil.mp e4

theorem disable_device_absent {s : PathInput} {d : Device} (hW : SeatWF s.seat_list)
    (ho : ∀ x ∈ seatDevs s.seat_list, x.devId = d.devId → x = d) :
    DevIdAbsent (path_disable_device s d).seat_list d.devId := by
  unfold path_disable_device
  cases hf : s.seat_list.find? (fun st => st.seatId = d.seatId) with
  | none =>
    intro st hst x hx hxe
    have hxd := ho x (mem_seatDevs_of hst hx) hxe
    have hback := hW.backRef st hst x hx
    have := List.find?_eq_none.mp hf st hst
    simp only [decide_eq_true_eq] at this
    exact this ((hxd ▸ hback).symm)
  | some seat =>
    have hseat : seat ∈ s.seat_list := List.mem_of_find?_eq_some hf
    have hseatId : seat.seatId = d.seatId := by
      have := List.find?_some hf
      simpa using this
    by_cases hany : seat.devices_list.any (fun x => x.devId = d.devId) = true
    · simp only [hany, if_pos rfl]
      rw [evdev_device_remove_eq]
      intro st hst x hx hxe
      rcases mem_unref hst with ⟨st2, h2, e1, -, -, e4, -, -⟩
      rcases List.mem_map.mp h2 with ⟨st1, h1, rfl⟩
      by_cases hid : st1.seatId = d.seatId
      · rw [if_pos hid] at e4
        have hnd : (st1.devices_list.map Device.devId).Nodup :=
          hW.devIdsNodup.sublist ((devices_sublist_seatDevs h1).map _)
        have hx2 : x ∈ removeFirstDev st1.devices_list d.devId := by
          rw [e4] at hx
          exact hx
        exact removeFirstDev_no_id hnd hx2 hxe
      · rw [if_neg hid] at e4
        have hx1 : x ∈ st1.devices_list := e4 ▸ hx
        have hxd := ho x (mem_seatDevs_of h1 hx1) hxe
        have hback := hW.backRef st1 h1 x hx1
        exact hid ((hxd ▸ hback).symm)
    · simp only [if_neg hany]
      intro st hst x hx hxe
      have hxd := ho x (mem_seatDevs_of hst hx) hxe
      have hback := hW.backRef st hst x hx
      have hstid : st.seatId = d.seatId := (hxd ▸ hback).symm
      have hst_eq : st = seat :=
        List.inj_on_of_nodup_map hW.idsNodup hst hseat (hstid.trans hseatId.symm)
      apply hany
      rw [List.any_eq_true]
      exact ⟨x, hst_eq ▸ hx, by simp [hxe]⟩

theorem disableSeatDevices_absentAll {dev0 : List Device}
    (hnod : (dev0.map Device.devId).Nodup) :
    ∀ (ds : List Device) (s : PathInput), SeatWF s.seat_list →
      List.Sublist (seatDevs s.seat_list) dev0 →
      (∀ x ∈ ds, x ∈ dev0) →
      ∀ d ∈ ds, DevIdAbsent (disableSeatDevices s ds).seat_list d.devId := by
  intro ds
  induction ds with
  | nil =>
    intro s _ _ _ d hd
    simp at hd
  | cons d rest ih =>
    intro s hW hsub hds d' hd'
    have ho : ∀ x ∈ seatDevs s.seat_list, x.devId = d.devId → x = d := fun x hx hxe =>
      List.inj_on_of_nodup_map hnod (hsub.mem hx) (hds d (List.mem_cons_self _ _)) hxe
    have ha : DevIdAbsent (path_disable_device s d).seat_list d.devId :=
      disable_device_absent hW ho
    have hW' : SeatWF (path_disable_device s d).seat_list :=
      seatWF_of_shrinks hW (shrinks_disable_device s d)
    have hsub' : List.Sublist (seatDevs (path_disable_device s d).seat_list) dev0 :=
      (shrinks_disable_device s d).devs.trans hsub
    rcases List.mem_cons.mp hd' with heq | hd'
    · rw [heq]
      exact absent_of_shrinks
        (shrinks_disableSeatDevices (path_disable_device s d) rest) ha
    · exact ih (path_disable_device s d) hW' hsub'
        (fun x hx => hds x (List.mem_cons_of_mem _ hx)) d' hd'

theorem disable_seat_empties {s : PathInput} {sid : Nat} (hW : SeatWF s.seat_list) :
    ∀ st ∈ (path_input_disable_seat s sid).seat_list,
      st.seatId = sid → st.devices_list = [] := by
  unfold path_input_disable_seat
  cases hf : s.seat_list.find? (fun st => st.seatId = sid) with
  | none =>
    intro st hst hste
    have := List.find?_eq_none.mp hf st hst
    simp only [decide_eq_true_eq] at this
    exact absurd hste this
  | some seat =>
    have hseat : seat ∈ s.seat_list := List.mem_of_find?_eq_some hf
    have hseatId : seat.seatId = sid := by
      have := List.find?_some hf
      simpa using this
    intro st hst hste
    set s1 : PathInput := { s with seat_list := libinput_seat_ref s.seat_list sid }
    have hW1 : SeatWF s1.seat_list := seatWF_of_shrinks hW (shrinks_ref s.seat_list sid)
    have habs : ∀ d ∈ seat.devices_list,
        DevIdAbsent (disableSeatDevices s1 seat.devices_list).seat_list d.devId := by
      refine disableSeatDevices_absentAll hW.devIdsNodup seat.devices_list s1 hW1 ?_ ?_
      · show List.Sublist (seatDevs (libinput_seat_ref s.seat_list sid)) _
        rw [seatDevs_ref]
      · exact fun x hx => mem_seatDevs_of hseat hx
    rcases mem_unref hst with ⟨st2, h2, e1, -, -, e4, -, -⟩
    rcases (shrinks_disableSeatDevices s1 seat.devices_list).mem st2 h2 with
      ⟨st1, h1, f1, -, -, f4, -⟩
    rcases mem_ref h1 with ⟨st0, h0, g1, -, -, g4, -⟩
    have hst0id : st0.seatId = sid := by
      rw [← g1, ← f1, ← e1]
      exact hste
    have hst0_eq : st0 = seat :=
      List.inj_on_of_nodup_map hW.idsNodup h0 hseat (hst0id.trans hseatId.symm)
    rw [e4]
    by_contra hne
    rcases List.exists_mem_of_ne_nil _ hne with ⟨x, hx⟩
    have hx1 : x ∈ st1.devices_list := f4.mem hx
    have hx0 : x ∈ seat.devices_list := hst0_eq ▸ g4 ▸ hx1
    exact habs x hx0 st2 h2 x hx rfl

theorem disable_fold_empties :
    ∀ (todo : List Nat) (s : PathInput), SeatWF s.seat_list →
      ∀ sid ∈ todo, ∀ st ∈ (todo.foldl path_input_disable_seat s).seat_list,
        st.seatId = sid → st.devices_list = [] := by
  intro todo
  induction todo with
  | nil =>
    intro s _ sid hsid
    simp at hsid
  | cons sid0 rest ih =>
    intro s hW sid hsid st hst hste
    have hW' : SeatWF (path_input_disable_seat s sid0).seat_list :=
      seatWF_of_shrinks hW (shrinks_disable_seat s sid0)
    rcases List.mem_cons.mp hsid with heq | hsid
    · rw [heq] at hste
      exact empties_of_shrinks
        (shrinks_disable_fold (path_input_disable_seat s sid0) rest)
        (disable_seat_empties hW) st hst hste
    · exact ih (path_input_disable_seat s sid0) hW' sid hsid st hst hste

theorem input_disable_empties {s : PathInput} (hW : SeatWF s.seat_list) :
    ∀ st ∈ (path_input_disable s).seat_list, st.devices_list = [] := by
  intro st hst
  have hid : st.seatId ∈ s.seat_list.map Seat.seatId :=
    (shrinks_input_disable s).ids.subset (List.mem_map_of_mem Seat.seatId hst)
  exact disable_fold_empties (s.seat_list.map Seat.seatId) s hW st.seatId hid st hst rfl

/-! ### Resume: every record gets a device, all-or-nothing -/

/-- Some seat with the given name pair holds a device created from the
path record with identity `i`. -/
def DevOnSeat (s : PathInput) (i : Nat) (phys lg : String) : Prop :=
  ∃ st ∈ s.seat_list, st.physical_name = phys ∧ st.logical_name = lg ∧
    ∃ d ∈ st.devices_list, d.devnodeId = i

theorem devOnSeat_enable_preserved {P : String → Prop} {s : PathInput} (hI : Inv P s)
    (A : Adapter) (dev : PathRecord) (ov : Option String) {i : Nat} {p n : String}
    (h : DevOnSeat s i p n) : DevOnSeat (path_device_enable A s dev ov).1 i p n := by
  rcases h with ⟨st, hst, h1, h2, x, hx, h3⟩
  cases hf : path_seat_get_named s default_seat (ov.getD default_seat_name) with
  | some st0 =>
    cases hA : A default_seat (ov.getD default_seat_name) dev.devnode dev.sysname with
    | created =>
      rw [enable_found_created hf hA]
      rcases attach_keeps st0.seatId (mkDev s.nextId dev st0.seatId) hst with
        ⟨st', hst', -, e2, e3, hsup⟩
      exact ⟨st', hst', e2 ▸ h1, e3 ▸ h2, x, hsup x hx, h3⟩
    | unhandled =>
      rw [enable_found_fail hf hI.refPos (Or.inl hA)]
      exact ⟨st, hst, h1, h2, x, hx, h3⟩
    | failed =>
      rw [enable_found_fail hf hI.refPos (Or.inr hA)]
      exact ⟨st, hst, h1, h2, x, hx, h3⟩
  | none =>
    cases hA : A default_seat (ov.getD default_seat_name) dev.devnode dev.sysname with
    | created =>
      rw [enable_none_created hf (inv_fresh_sid hI) hA]
      exact ⟨st, List.mem_cons_of_mem _ hst, h1, h2, x, hx, h3⟩
    | unhandled =>
      rw [enable_none_fail hf (inv_fresh_sid hI) (Or.inl hA)]
      exact ⟨st, hst, h1, h2, x, hx, h3⟩
    | failed =>
      rw [enable_none_fail hf (inv_fresh_sid hI) (Or.inr hA)]
      exact ⟨st, hst, h1, h2, x, hx, h3⟩

theorem devOnSeat_enable_created {P : String → Prop} {s : PathInput} (hI : Inv P s)
    {A : Adapter} {dev : PathRecord} {ov : Option String} {dv : Device}
    (h : (path_device_enable A s dev ov).2 = some dv) :
    DevOnSeat (path_device_enable A s dev ov).1 dev.devnodeId default_seat
      (ov.getD default_seat_name) := by
  cases hf : path_seat_get_named s default_seat (ov.getD default_seat_name) with
  | some st0 =>
    rcases get_named_some hf with ⟨hst0, hp0, hl0⟩
    cases hA : A default_seat (ov.getD default_seat_name) dev.devnode dev.sysname with
    | created =>
      rw [enable_found_created hf hA]
      refine ⟨{ st0 with
          devices_list := mkDev s.nextId dev st0.seatId :: st0.devices_list,
          refcount := st0.refcount + 1 },
        List.mem_map.mpr ⟨st0, hst0, by simp⟩, by simpa using hp0, by simpa using hl0,
        mkDev s.nextId dev st0.seatId, List.mem_cons_self _ _, rfl⟩
    | unhandled =>
      rw [enable_found_fail hf hI.refPos (Or.inl hA)] at h
      simp at h
    | failed =>
      rw [enable_found_fail hf hI.refPos (Or.inr hA)] at h
      simp at h
  | none =>
    cases hA : A default_seat (ov.getD default_seat_name) dev.devnode dev.sysname with
    | created =>
      rw [enable_none_created hf (inv_fresh_sid hI) hA]
      exact ⟨_, List.mem_cons_self _ _, rfl, rfl,
        mkDev (s.nextId + 1) dev s.nextId, List.mem_cons_self _ _, rfl⟩
    | unhandled =>
      rw [enable_none_fail hf (inv_fresh_sid hI) (Or.inl hA)] at h
      simp at h
    | failed =>
      rw [enable_none_fail hf (inv_fresh_sid hI) (Or.inr hA)] at h
      simp at h

theorem resume_go_main {P : String → Prop} :
    ∀ (l : List PathRecord) (s : PathInput) (A : Adapter), Inv P s →
      (∀ r ∈ l, r ∈ s.path_list) →
      Inv P (path_input_enable_go A s l).1 ∧
      (path_input_enable_go A s l).1.path_list = s.path_list ∧
      ((path_input_enable_go A s l).2 = 0 ∨
        ((path_input_enable_go A s l).2 = -1 ∧
          ∀ st ∈ (path_input_enable_go A s l).1.seat_list, st.devices_list = [])) ∧
      ((path_input_enable_go A s l).2 = 0 →
        (∀ r ∈ l, DevOnSeat (path_input_enable_go A s l).1 r.devnodeId default_seat
          default_seat_name) ∧
        (∀ i p n, DevOnSeat s i p n →
          DevOnSeat (path_input_enable_go A s l).1 i p n)) := by
  intro l
  induction l with
  | nil =>
    intro s A hI _
    refine ⟨hI, rfl, Or.inl rfl, fun _ => ⟨?_, fun i p n h => h⟩⟩
    intro r hr
    simp at hr
  | cons dev rest ih =>
    intro s A hI hl
    have hdev : dev ∈ s.path_list := hl dev (List.mem_cons_self _ _)
    have hP : P dev.devnode := hI.recP dev hdev
    have hlt : dev.devnodeId < s.nextId := hI.recIdsLt dev hdev
    have hI1 : Inv P (path_device_enable A s dev none).1 :=
      enable_preserves_inv hI A dev none hP hlt
    cases hres : path_device_enable A s dev none with
    | mk s1 r =>
      cases r with
      | some dv =>
        have hgo : path_input_enable_go A s (dev :: rest) =
            path_input_enable_go A s1 rest := by
          simp [path_input_enable_go, hres]
        have hs1 : s1 = (path_device_enable A s dev none).1 := by rw [hres]
        have hI1' : Inv P s1 := hs1 ▸ hI1
        have hpath1 : s1.path_list = s.path_list := by
          rw [hs1]
          exact enable_path_list A s dev none
        have hl1 : ∀ x ∈ rest, x ∈ s1.path_list := by
          intro x hx
          rw [hpath1]
          exact hl x (List.mem_cons_of_mem _ hx)
        rcases ih s1 A hI1' hl1 with ⟨g1, g2, g3, g4⟩
        rw [hgo]
        refine ⟨g1, g2.trans hpath1, g3, fun h0 => ?_⟩
        rcases g4 h0 with ⟨g5, g6⟩
        refine ⟨?_, ?_⟩
        · intro x hx
          rcases List.mem_cons.mp hx with heq | hx
          · rw [heq]
            apply g6
            have hcr : DevOnSeat (path_device_enable A s dev none).1 dev.devnodeId
                default_seat default_seat_name := by
              apply devOnSeat_enable_created hI
              rw [hres]
            exact hs1 ▸ hcr
          · exact g5 x hx
        · intro i p n h
          apply g6
          have := devOnSeat_enable_preserved hI A dev none h
          exact hs1 ▸ this
      | none =>
        have hgo : path_input_enable_go A s (dev :: rest) =
            (path_input_disable s1, -1) := by
          simp [path_input_enable_go, hres]
        have hs1 : s1 = (path_device_enable A s dev none).1 := by rw [hres]
        have hI1' : Inv P s1 := hs1 ▸ hI1
        have hpath1 : s1.path_list = s.path_list := by
          rw [hs1]
          exact enable_path_list A s dev none
        rw [hgo]
        refine ⟨inv_input_disable hI1', ?_, Or.inr ⟨rfl, ?_⟩, fun h0 => by cases h0⟩
        · exact (input_disable_frame s1).1.trans hpath1
        · exact input_disable_empties (SeatWF.ofInv hI1')

/-! ### Removal: `libinput_path_remove_device` -/

theorem pathInput_ext {a b : PathInput} (h1 : a.path_list = b.path_list)
    (h2 : a.seat_list = b.seat_list) (h3 : a.nextId = b.nextId) : a = b := by
  cases a
  cases b
  simp_all

/-- The state after the record unlink and the seat reference, before the
disable step of `libinput_path_remove_device`. -/
def removeMid (s : PathInput) (d : Device) : PathInput :=
  { s with path_list := removeFirstRecord s.path_list d.devnodeId,
           seat_list := libinput_seat_ref s.seat_list d.seatId }

/-- The state after the disable step of `libinput_path_remove_device`. -/
def removeInner (s : PathInput) (d : Device) : PathInput :=
  path_disable_device (removeMid s d) d

theorem remove_device_eq (s : PathInput) (d : Device) :
    libinput_path_remove_device s d =
      { removeInner s d with
          seat_list := libinput_seat_unref (removeInner s d).seat_list d.seatId } := rfl

theorem remove_device_path_list (s : PathInput) (d : Device) :
    (libinput_path_remove_device s d).path_list =
      removeFirstRecord s.path_list d.devnodeId := by
  rw [remove_device_eq]
  show (removeInner s d).path_list = _
  exact (disable_device_frame (removeMid s d) d).1

theorem remove_device_nextId (s : PathInput) (d : Device) :
    (libinput_path_remove_device s d).nextId = s.nextId := by
  rw [remove_device_eq]
  show (removeInner s d).nextId = _
  exact (disable_device_frame (removeMid s d) d).2

theorem inv_removeRecord {P : String → Prop} {s : PathInput} {i : Nat} (hI : Inv P s) :
    Inv P { s with path_list := removeFirstRecord s.path_list i } := by
  refine ⟨hI.seatIdsNodup, hI.seatIdsLt, hI.pairsNodup, hI.refPos, hI.backRef,
    hI.devIdsNodup, hI.devIdsLt, hI.devRecIdLt, hI.devP, ?_, ?_, ?_⟩
  · exact hI.recIdsNodup.sublist ((removeFirstRecord_sublist _ i).map _)
  · intro r hr
    exact hI.recIdsLt r (mem_removeFirstRecord hr)
  · intro r hr
    exact hI.recP r (mem_removeFirstRecord hr)

theorem remove_device_inv {P : String → Prop} {s : PathInput} (d : Device)
    (hI : Inv P s) : Inv P (libinput_path_remove_device s d) := by
  have hI2 : Inv P (removeMid s d) := by
    have h1 := inv_removeRecord (i := d.devnodeId) hI
    exact inv_of_shrinks h1 (shrinks_ref _ d.seatId)
  have hI3 : Inv P (removeInner s d) := by
    rcases disable_device_frame (removeMid s d) d with ⟨h1, h2⟩
    rw [removeInner, eq_setSeatList h1 h2]
    exact inv_of_shrinks hI2 (shrinks_disable_device (removeMid s d) d)
  rw [remove_device_eq]
  exact inv_of_shrinks hI3 (shrinks_unref _ d.seatId)

theorem shrinks_remove_device (s : PathInput) (d : Device) :
    Shrinks s.seat_list (libinput_path_remove_device s d).seat_list := by
  rw [remove_device_eq]
  refine ((shrinks_ref s.seat_list d.seatId).trans ?_).trans (shrinks_unref _ d.seatId)
  exact shrinks_disable_device (removeMid s d) d

theorem remove_device_absent {s : PathInput} {d : Device} (hW : SeatWF s.seat_list)
    (hdi : DeviceIn s d) :
    DevIdAbsent (libinput_path_remove_device s d).seat_list d.devId := by
  rw [remove_device_eq]
  apply absent_of_shrinks (shrinks_unref _ d.seatId)
  have hW2 : SeatWF (removeMid s d).seat_list := by
    show SeatWF (libinput_seat_ref s.seat_list d.seatId)
    exact seatWF_of_shrinks hW (shrinks_ref _ _)
  have ho : ∀ x ∈ seatDevs (removeMid s d).seat_list, x.devId = d.devId → x = d := by
    intro x hx hxe
    rcases hdi with ⟨st, hst, hd⟩
    have hx' : x ∈ seatDevs s.seat_list := by
      have : seatDevs (removeMid s d).seat_list = seatDevs s.seat_list := by
        show seatDevs (libinput_seat_ref s.seat_list d.seatId) = _
        exact seatDevs_ref _ _
      exact this ▸ hx
    exact List.inj_on_of_nodup_map hW.devIdsNodup hx' (mem_seatDevs_of hst hd) hxe
  exact disable_device_absent hW2 ho

theorem disable_device_noop {s : PathInput} {d : Device}
    (habs : DevIdAbsent s.seat_list d.devId) : path_disable_device s d = s := by
  unfold path_disable_device
  cases hf : s.seat_list.find? (fun st => st.seatId = d.seatId) with
  | none => rfl
  | some seat =>
    have hseat := List.mem_of_find?_eq_some hf
    have hfalse : seat.devices_list.any (fun x => x.devId = d.devId) = false := by
      rw [List.any_eq_false]
      intro x hx
      simp only [decide_eq_true_eq]
      exact habs seat hseat x hx
    simp [hfalse]

theorem remove_device_idem {P : String → Prop} {s : PathInput} {d : Device}
    (hI : Inv P s) (hdi : DeviceIn s d) :
    libinput_path_remove_device (libinput_path_remove_device s d) d =
      libinput_path_remove_device s d := by
  have hIo : Inv P (libinput_path_remove_device s d) := remove_device_inv d hI
  have hpath : removeFirstRecord (libinput_path_remove_device s d).path_list
      d.devnodeId = (libinput_path_remove_device s d).path_list := by
    apply removeFirstRecord_eq_self
    intro x hx
    rw [remove_device_path_list] at hx
    exact removeFirstRecord_no_id hI.recIdsNodup hx
  have habs : DevIdAbsent (libinput_path_remove_device s d).seat_list d.devId :=
    remove_device_absent (SeatWF.ofInv hI) hdi
  have habs2 : DevIdAbsent (removeMid (libinput_path_remove_device s d) d).seat_list
      d.devId := by
    show DevIdAbsent
      (libinput_seat_ref (libinput_path_remove_device s d).seat_list d.seatId) d.devId
    exact absent_of_shrinks (shrinks_ref _ _) habs
  have hni : removeInner (libinput_path_remove_device s d) d =
      removeMid (libinput_path_remove_device s d) d := disable_device_noop habs2
  refine pathInput_ext ?_ ?_ ?_
  · rw [remove_device_path_list]
    exact hpath
  · show (libinput_seat_unref
      (removeInner (libinput_path_remove_device s d) d).seat_list d.seatId) = _
    rw [hni]
    show libinput_seat_unref
      (libinput_seat_ref (libinput_path_remove_device s d).seat_list d.seatId)
        d.seatId = _
    exact unref_ref_cancel hIo.refPos
  · exact remove_device_nextId _ d

/-! ### `path_create_device`, change-seat, and reachability -/

theorem removeFirstRecord_cons_head {r : PathRecord} {l : List PathRecord} {i : Nat}
    (h : r.devnodeId = i) : removeFirstRecord (r :: l) i = l := by
  simp [removeFirstRecord, h]

/-- The fresh path record built by `path_create_device`. -/
def mkRec (s : PathInput) (devnode : String) : PathRecord :=
  { devnodeId := s.nextId, devnode := devnode, sysname := sysnameOf devnode }

/-- The context into which `path_create_device` enables the fresh record. -/
def createMid (s : PathInput) (devnode : String) : PathInput :=
  { s with path_list := mkRec s devnode :: s.path_list, nextId := s.nextId + 1 }

theorem create_eq (A : Adapter) (s : PathInput) (devnode : String)
    (ov : Option String) :
    path_create_device A s devnode ov =
      match path_device_enable A (createMid s devnode) (mkRec s devnode) ov with
      | (s2, some d) => (s2, some d)
      | (s2, none) =>
        ({ s2 with path_list := removeFirstRecord s2.path_list s.nextId }, none) := rfl

theorem create_path_list_none {A : Adapter} {s : PathInput} {devnode : String}
    {ov : Option String} (h : (path_create_device A s devnode ov).2 = none) :
    (path_create_device A s devnode ov).1.path_list = s.path_list := by
  rw [create_eq] at h ⊢
  cases he : path_device_enable A (createMid s devnode) (mkRec s devnode) ov with
  | mk s2 r =>
    cases r with
    | some d => simp [he] at h
    | none =>
      simp only [he]
      have hp : s2.path_list = mkRec s devnode :: s.path_list := by
        have := enable_path_list A (createMid s devnode) (mkRec s devnode) ov
        rw [he] at this
        exact this
      rw [hp]
      exact removeFirstRecord_cons_head rfl

theorem create_path_list_some {A : Adapter} {s : PathInput} {devnode : String}
    {ov : Option String} {dv : Device}
    (h : (path_create_device A s devnode ov).2 = some dv) :
    (path_create_device A s devnode ov).1.path_list = mkRec s devnode :: s.path_list := by
  rw [create_eq] at h ⊢
  cases he : path_device_enable A (createMid s devnode) (mkRec s devnode) ov with
  | mk s2 r =>
    cases r with
    | some d =>
      simp only [he]
      have := enable_path_list A (createMid s devnode) (mkRec s devnode) ov
      rw [he] at this
      exact this
    | none => simp [he] at h

theorem inv_consRecord {P : String → Prop} {s : PathInput} {devnode : String}
    (hI : Inv P s) (hP : P devnode) : Inv P (createMid s devnode) := by
  refine ⟨hI.seatIdsNodup, ?_, hI.pairsNodup, hI.refPos, hI.backRef, hI.devIdsNodup,
    ?_, ?_, hI.devP, ?_, ?_, ?_⟩
  · intro st hst
    exact Nat.lt_succ_of_lt (hI.seatIdsLt st hst)
  · intro x hx
    exact Nat.lt_succ_of_lt (hI.devIdsLt x hx)
  · intro x hx
    exact Nat.lt_succ_of_lt (hI.devRecIdLt x hx)
  · show ((mkRec s devnode :: s.path_list).map PathRecord.devnodeId).Nodup
    simp only [List.map_cons, List.nodup_cons]
    refine ⟨fun hmem => ?_, hI.recIdsNodup⟩
    rcases List.mem_map.mp hmem with ⟨x, hx, hxe⟩
    have := hI.recIdsLt x hx
    simp only [mkRec] at hxe
    omega
  · intro r hr
    show r.devnodeId < s.nextId + 1
    rcases List.mem_cons.mp hr with rfl | hr
    · simp [mkRec]
    · exact Nat.lt_succ_of_lt (hI.recIdsLt r hr)
  · intro r hr
    rcases List.mem_cons.mp hr with rfl | hr
    · exact hP
    · exact hI.recP r hr

theorem create_inv {P : String → Prop} {s : PathInput} (A : Adapter) (devnode : String)
    (ov : Option String) (hI : Inv P s) (hP : P devnode) :
    Inv P (path_create_device A s devnode ov).1 := by
  have hI1 : Inv P (createMid s devnode) := inv_consRecord hI hP
  have hI2 : Inv P (path_device_enable A (createMid s devnode) (mkRec s devnode) ov).1 :=
    enable_preserves_inv hI1 A (mkRec s devnode) ov hP (by simp [mkRec, createMid])
  rw [create_eq]
  cases he : path_device_enable A (createMid s devnode) (mkRec s devnode) ov with
  | mk s2 r =>
    cases r with
    | some d =>
      simp only
      rw [he] at hI2
      exact hI2
    | none =>
      simp only
      rw [he] at hI2
      exact inv_removeRecord hI2

theorem enable_devs_superset (A : Adapter) (s : PathInput) (dev : PathRecord)
    (ov : Option String) :
    ∀ x ∈ seatDevs (path_device_enable A s dev ov).1.seat_list,
      x ∈ seatDevs s.seat_list ∨ (path_device_enable A s dev ov).2 = some x := by
  intro x hx
  simp only [path_device_enable] at hx ⊢
  cases hf : path_seat_get_named s default_seat (ov.getD default_seat_name) with
  | some st =>
    rw [resolve_found hf] at hx ⊢
    cases hA : A default_seat (ov.getD default_seat_name) dev.devnode dev.sysname with
    | created =>
      simp only [enableAdapterStep, hA] at hx ⊢
      have hx2 := (seatDevs_unref_sublist _ st.seatId).mem hx
      rcases mem_seatDevs_attach hx2 with rfl | hx3
      · exact Or.inr rfl
      · rw [seatDevs_ref] at hx3
        exact Or.inl hx3
    | unhandled =>
      simp only [enableAdapterStep, hA] at hx ⊢
      have hx2 := (seatDevs_unref_sublist _ st.seatId).mem hx
      rw [seatDevs_ref] at hx2
      exact Or.inl hx2
    | failed =>
      simp only [enableAdapterStep, hA] at hx ⊢
      have hx2 := (seatDevs_unref_sublist _ st.seatId).mem hx
      rw [seatDevs_ref] at hx2
      exact Or.inl hx2
  | none =>
    rw [resolve_none hf] at hx ⊢
    cases hA : A default_seat (ov.getD default_seat_name) dev.devnode dev.sysname with
    | created =>
      simp only [enableAdapterStep, hA] at hx ⊢
      have hx2 := (seatDevs_unref_sublist _ s.nextId).mem hx
      rcases mem_seatDevs_attach hx2 with rfl | hx3
      · exact Or.inr rfl
      · rw [seatDevs_cons] at hx3
        simp only [List.nil_append] at hx3
        exact Or.inl hx3
    | unhandled =>
      simp only [enableAdapterStep, hA] at hx ⊢
      have hx2 := (seatDevs_unref_sublist _ s.nextId).mem hx
      rw [seatDevs_cons] at hx2
      simp only [List.nil_append] at hx2
      exact Or.inl hx2
    | failed =>
      simp only [enableAdapterStep, hA] at hx ⊢
      have hx2 := (seatDevs_unref_sublist _ s.nextId).mem hx
      rw [seatDevs_cons] at hx2
      simp only [List.nil_append] at hx2
      exact Or.inl hx2

theorem enable_some_facts {A : Adapter} {s : PathInput} {dev : PathRecord}
    {ov : Option String} {dv : Device}
    (h : (path_device_enable A s dev ov).2 = some dv) :
    dv.devnode = dev.devnode ∧ dv.devnodeId = dev.devnodeId ∧ dv.sysname = dev.sysname ∧
      s.nextId ≤ dv.devId := by
  simp only [path_device_enable] at h
  cases hf : path_seat_get_named s default_seat (ov.getD default_seat_name) with
  | some st =>
    rw [resolve_found hf] at h
    cases hA : A default_seat (ov.getD default_seat_name) dev.devnode dev.sysname with
    | created =>
      simp only [enableAdapterStep, hA] at h
      have := Option.some_inj.mp h
      subst this
      simp
    | unhandled => simp [enableAdapterStep, hA] at h
    | failed => simp [enableAdapterStep, hA] at h
  | none =>
    rw [resolve_none hf] at h
    cases hA : A default_seat (ov.getD default_seat_name) dev.devnode dev.sysname with
    | created =>
      simp only [enableAdapterStep, hA] at h
      have := Option.some_inj.mp h
      subst this
      simp
    | unhandled => simp [enableAdapterStep, hA] at h
    | failed => simp [enableAdapterStep, hA] at h

theorem change_seat_fst (A : Adapter) (s : PathInput) (d : Device) (nm : String) :
    (path_device_change_seat A s d nm).1 =
      (path_create_device A (libinput_path_remove_device s d) d.devnode (some nm)).1 := by
  simp only [path_device_change_seat]
  cases path_create_device A (libinput_path_remove_device s d) d.devnode (some nm) with
  | mk s2 r =>
    cases r <;> rfl

theorem change_seat_ret (A : Adapter) (s : PathInput) (d : Device) (nm : String) :
    ((path_device_change_seat A s d nm).2 = 0 ∧
      (path_create_device A (libinput_path_remove_device s d) d.devnode
        (some nm)).2.isSome = true) ∨
    ((path_device_change_seat A s d nm).2 = -1 ∧
      (path_create_device A (libinput_path_remove_device s d) d.devnode
        (some nm)).2 = none) := by
  simp only [path_device_change_seat]
  cases path_create_device A (libinput_path_remove_device s d) d.devnode (some nm) with
  | mk s2 r =>
    cases r with
    | some dv => exact Or.inl ⟨rfl, rfl⟩
    | none => exact Or.inr ⟨rfl, rfl⟩

theorem inv_initial {P : String → Prop} : Inv P initialInput := by
  refine ⟨?_, ?_, ?_, ?_, ?_, ?_, ?_, ?_, ?_, ?_, ?_, ?_⟩ <;>
    simp [initialInput, seatDevs, seatPairs]

theorem inv_of_reachable {P : String → Prop} {s : PathInput}
    (h : ReachableP P s) : Inv P s := by
  induction h with
  | init => exact inv_initial
  | add A s path _ hP ih => exact create_inv A path none ih hP
  | remove s d _ _ ih => exact remove_device_inv d ih
  | suspend s _ ih => exact inv_input_disable ih
  | resume A s _ ih =>
    exact (resume_go_main s.path_list s A ih (fun r hr => hr)).1
  | moveSeat A s d nm _ hdi ih =>
    rw [change_seat_fst]
    have hP : P d.devnode := by
      rcases hdi with ⟨st, hst, hd⟩
      exact ih.devP d (mem_seatDevs_of hst hd)
    exact create_inv A d.devnode (some nm) (remove_device_inv d ih) hP

theorem create_seat_list (A : Adapter) (s : PathInput) (devnode : String)
    (ov : Option String) :
    (path_create_device A s devnode ov).1.seat_list =
      (path_device_enable A (createMid s devnode) (mkRec s devnode) ov).1.seat_list := by
  rw [create_eq]
  cases path_device_enable A (createMid s devnode) (mkRec s devnode) ov with
  | mk s2 r => cases r <;> rfl

theorem create_snd (A : Adapter) (s : PathInput) (devnode : String)
    (ov : Option String) :
    (path_create_device A s devnode ov).2 =
      (path_device_enable A (createMid s devnode) (mkRec s devnode) ov).2 := by
  rw [create_eq]
  cases path_device_enable A (createMid s devnode) (mkRec s devnode) ov with
  | mk s2 r => cases r <;> rfl

theorem enable_created_on_seat {P : String → Prop} {s : PathInput} (hI : Inv P s)
    {A : Adapter} {dev : PathRecord} {ov : Option String} {dv : Device}
    (h : (path_device_enable A s dev ov).2 = some dv) :
    ∃ st ∈ (path_device_enable A s dev ov).1.seat_list,
      st.physical_name = default_seat ∧ st.logical_name = ov.getD default_seat_name ∧
      dv ∈ st.devices_list := by
  cases hf : path_seat_get_named s default_seat (ov.getD default_seat_name) with
  | some st0 =>
    rcases get_named_some hf with ⟨hst0, hp0, hl0⟩
    cases hA : A default_seat (ov.getD default_seat_name) dev.devnode dev.sysname with
    | created =>
      rw [enable_found_created hf hA] at h ⊢
      have hdv : dv = mkDev s.nextId dev st0.seatId := (Option.some_inj.mp h).symm
      refine ⟨{ st0 with
          devices_list := mkDev s.nextId dev st0.seatId :: st0.devices_list,
          refcount := st0.refcount + 1 },
        List.mem_map.mpr ⟨st0, hst0, by simp⟩, by simpa using hp0, by simpa using hl0, ?_⟩
      rw [hdv]
      exact List.mem_cons_self _ _
    | unhandled =>
      rw [enable_found_fail hf hI.refPos (Or.inl hA)] at h
      simp at h
    | failed =>
      rw [enable_found_fail hf hI.refPos (Or.inr hA)] at h
      simp at h
  | none =>
    cases hA : A default_seat (ov.getD default_seat_name) dev.devnode dev.sysname with
    | created =>
      rw [enable_none_created hf (inv_fresh_sid hI) hA] at h ⊢
      have hdv : dv = mkDev (s.nextId + 1) dev s.nextId := (Option.some_inj.mp h).symm
      refine ⟨_, List.mem_cons_self _ _, rfl, rfl, ?_⟩
      rw [hdv]
      exact List.mem_cons_self _ _
    | unhandled =>
      rw [enable_none_fail hf (inv_fresh_sid hI) (Or.inl hA)] at h
      simp at h
    | failed =>
      rw [enable_none_fail hf (inv_fresh_sid hI) (Or.inr hA)] at h
      simp at h

theorem enable_none_seat_list {P : String → Prop} {s : PathInput} (hI : Inv P s)
    {A : Adapter} {dev : PathRecord} {ov : Option String}
    (h : (path_device_enable A s dev ov).2 = none) :
    (path_device_enable A s dev ov).1.seat_list = s.seat_list := by
  cases hf : path_seat_get_named s default_seat (ov.getD default_seat_name) with
  | some st0 =>
    cases hA : A default_seat (ov.getD default_seat_name) dev.devnode dev.sysname with
    | created =>
      rw [enable_found_created hf hA] at h
      simp at h
    | unhandled =>
      rw [enable_found_fail hf hI.refPos (Or.inl hA)]
    | failed =>
      rw [enable_found_fail hf hI.refPos (Or.inr hA)]
  | none =>
    cases hA : A default_seat (ov.getD default_seat_name) dev.devnode dev.sysname with
    | created =>
      rw [enable_none_created hf (inv_fresh_sid hI) hA] at h
      simp at h
    | unhandled =>
      rw [enable_none_fail hf (inv_fresh_sid hI) (Or.inl hA)]
    | failed =>
      rw [enable_none_fail hf (inv_fresh_sid hI) (Or.inr hA)]

theorem sysnameChars_spec : ∀ cs : List Char,
    (sysnameChars cs = none → '/' ∉ cs) ∧
    (∀ sfx, sysnameChars cs = some sfx →
      (∃ pre, cs = pre ++ '/' :: sfx) ∧ '/' ∉ sfx) := by
  intro cs
  induction cs with
  | nil =>
    refine ⟨fun _ => by simp, fun sfx h => by simp [sysnameChars] at h⟩
  | cons c rest ih =>
    cases hr : sysnameChars rest with
    | some s0 =>
      refine ⟨fun h => by simp [sysnameChars, hr] at h, fun sfx h => ?_⟩
      simp only [sysnameChars, hr] at h
      have hs : s0 = sfx := Option.some_inj.mp h
      subst hs
      rcases (ih.2 s0 hr) with ⟨⟨pre, hpre⟩, hnot⟩
      exact ⟨⟨c :: pre, by rw [hpre]; rfl⟩, hnot⟩
    | none =>
      by_cases hc : c = '/'
      · refine ⟨fun h => by simp [sysnameChars, hr, hc] at h, fun sfx h => ?_⟩
        simp only [sysnameChars, hr, if_pos hc] at h
        have hs : rest = sfx := Option.some_inj.mp h
        subst hs
        exact ⟨⟨[], by simp [hc]⟩, ih.1 hr⟩
      · refine ⟨fun _ => ?_, fun sfx h => by simp [sysnameChars, hr, hc] at h⟩
        intro hmem
        rcases List.mem_cons.mp hmem with he | hmem
        · exact hc he.symm
        · exact ih.1 hr hmem

theorem sysnameOf_no_sep {devnode : String} (h : '/' ∉ devnode.toList) :
    sysnameOf devnode = "" := by
  unfold sysnameOf
  cases hc : sysnameChars devnode.toList with
  | none => rfl
  | some sfx =>
    rcases (sysnameChars_spec devnode.toList).2 sfx hc with ⟨⟨pre, hpre⟩, -⟩
    exact absurd (hpre ▸ List.mem_append_right pre (List.mem_cons_self _ _)) h

theorem sysnameOf_sep {devnode : String} (h : '/' ∈ devnode.toList) :
    (∃ pre, devnode.toList = pre ++ '/' :: (sysnameOf devnode).toList) ∧
      '/' ∉ (sysnameOf devnode).toList := by
  unfold sysnameOf
  cases hc : sysnameChars devnode.toList with
  | none => exact absurd h ((sysnameChars_spec devnode.toList).1 hc)
  | some sfx =>
    rcases (sysnameChars_spec devnode.toList).2 sfx hc with ⟨⟨pre, hpre⟩, hnot⟩
    have ht : (match (some sfx : Option (List Char)) with
        | some sfx2 => String.mk sfx2
        | none => "").toList = sfx := rfl
    rw [ht]
    exact ⟨⟨pre, hpre⟩, hnot⟩

theorem exists_of_mem_seatDevs {l : List Seat} {x : Device} (h : x ∈ seatDevs l) :
    ∃ st ∈ l, x ∈ st.devices_list := by
  induction l with
  | nil => simp [seatDevs] at h
  | cons st rest ih =>
    rw [seatDevs_cons] at h
    rcases List.mem_append.mp h with h | h
    · exact ⟨st, List.mem_cons_self _ _, h⟩
    · rcases ih h with ⟨st1, h1, h2⟩
      exact ⟨st1, List.mem_cons_of_mem _ h1, h2⟩

theorem absent_seatDevs {l : List Seat} {i : Nat} (h : DevIdAbsent l i) :
    ∀ x ∈ seatDevs l, x.devId ≠ i := by
  intro x hx
  rcases exists_of_mem_seatDevs hx with ⟨st, hst, hmem⟩
  exact h st hst x hmem

/-! ### Sample states for concrete witnesses -/

/-- The adapter that creates a device for every devnode. -/
def alwaysCreate : Adapter := fun _ _ _ _ => AdapterResult.created

/-- The adapter that fails to create a device for every devnode. -/
def alwaysFail : Adapter := fun _ _ _ _ => AdapterResult.failed

/-- The adapter that reports every devnode as unhandled. -/
def alwaysUnhandled : Adapter := fun _ _ _ _ => AdapterResult.unhandled

/-- A sample context: one device added on the default seat. -/
def sampleInput : PathInput :=
  (libinput_path_add_device alwaysCreate initialInput "/dev/input/event3").1

/-- The device handle living in `sampleInput`. -/
def sampleDevice : Device :=
  { devId := 2, devnodeId := 0, devnode := "/dev/input/event3", sysname := "event3",
    seatId := 1 }

theorem sample_reachable : Reachable sampleInput :=
  ReachableP.add alwaysCreate initialInput "/dev/input/event3" ReachableP.init trivial

theorem sample_wf : WF sampleInput := inv_of_reachable sample_reachable

/-! ### The claims -/

/-- C10: enable does not touch the path registry: for every context
state and record, `path_device_enable` (with or without a logical-name
override, whatever the adapter outcome) leaves the path registry —
records with their devnode and sysname fields — unchanged. -/
theorem c10_enable_leaves_path_registry (A : Adapter) (s : PathInput)
    (dev : PathRecord) (ov : Option String) :
    (path_device_enable A s dev ov).1.path_list = s.path_list :=
  enable_path_list A s dev ov

/-- C6: `path_create_device` first inserts the fresh path record and then
enables it; when the enable yields no device the record is unlinked
again, so the path registry after a failed addDevice equals the registry
before the call, while a successful addDevice leaves the fresh record at
the head of the registry. -/
theorem c6_add_device_rollback (A : Adapter) (s : PathInput) (devnode : String)
    (ov : Option String) :
    ((path_create_device A s devnode ov).2 = none →
      (path_create_device A s devnode ov).1.path_list = s.path_list) ∧
    (∀ dv, (path_create_device A s devnode ov).2 = some dv →
      (path_create_device A s devnode ov).1.path_list =
        mkRec s devnode :: s.path_list) :=
  ⟨fun h => create_path_list_none h, fun _ h => create_path_list_some h⟩

theorem c6_add_device_rollback_witness :
    (path_create_device alwaysFail initialInput "/dev/input/event0" none).2 = none ∧
    (path_create_device alwaysFail initialInput "/dev/input/event0" none).1.path_list =
      initialInput.path_list :=
  ⟨rfl, (c6_add_device_rollback alwaysFail initialInput "/dev/input/event0" none).1 rfl⟩

/-- C5: suspend disables everything and always succeeds: after
`path_input_disable` (which visits every seat of the registry, holding a
reference for the duration of its sweep and removing every device in the
seat's device set) no seat holds any device, and the path registry is
unchanged. -/
theorem c5_suspend_disables_all (s : PathInput) (h : WF s) :
    (path_input_disable s).path_list = s.path_list ∧
    ∀ st ∈ (path_input_disable s).seat_list, st.devices_list = [] :=
  ⟨(input_disable_frame s).1, input_disable_empties (SeatWF.ofInv h)⟩

theorem c5_suspend_disables_all_witness :
    WF sampleInput ∧
    ((path_input_disable sampleInput).path_list = sampleInput.path_list ∧
      ∀ st ∈ (path_input_disable sampleInput).seat_list, st.devices_list = []) :=
  ⟨sample_wf, c5_suspend_disables_all sampleInput sample_wf⟩

/-- C7: an unhandled device is not an error: when the adapter returns the
unhandled sentinel, enable returns null after a single informational log
entry, no device is attached to any seat and the locally taken seat
reference is released — the very same outcome, state included, as an
adapter creation failure. -/
theorem c7_unhandled_is_not_error (A1 A2 : Adapter) (s : PathInput) (dev : PathRecord)
    (ov : Option String) (h : WF s)
    (h1 : A1 default_seat (ov.getD default_seat_name) dev.devnode dev.sysname =
      AdapterResult.unhandled)
    (h2 : A2 default_seat (ov.getD default_seat_name) dev.devnode dev.sysname =
      AdapterResult.failed) :
    path_device_enable A1 s dev ov = path_device_enable A2 s dev ov ∧
    (path_device_enable A1 s dev ov).2 = none ∧
    (path_device_enable A1 s dev ov).1.seat_list = s.seat_list ∧
    (∃ m, path_device_enable_logs A1 dev ov = [(LogLevel.info, m)]) := by
  have hI : Inv (fun _ => True) s := h
  cases hf : path_seat_get_named s default_seat (ov.getD default_seat_name) with
  | some st =>
    rw [enable_found_fail hf hI.refPos (Or.inl h1),
      enable_found_fail hf hI.refPos (Or.inr h2)]
    exact ⟨rfl, rfl, rfl, ⟨dev.sysname ++ " - not using input device " ++ dev.devnode,
      by simp [path_device_enable_logs, h1]⟩⟩
  | none =>
    rw [enable_none_fail hf (inv_fresh_sid hI) (Or.inl h1),
      enable_none_fail hf (inv_fresh_sid hI) (Or.inr h2)]
    exact ⟨rfl, rfl, rfl, ⟨dev.sysname ++ " - not using input device " ++ dev.devnode,
      by simp [path_device_enable_logs, h1]⟩⟩

theorem c7_unhandled_is_not_error_witness :
    WF sampleInput ∧
    path_device_enable alwaysUnhandled sampleInput
        ⟨99, "/dev/null", "null"⟩ none =
      path_device_enable alwaysFail sampleInput ⟨99, "/dev/null", "null"⟩ none :=
  ⟨sample_wf,
    (c7_unhandled_is_not_error alwaysUnhandled alwaysFail sampleInput
      ⟨99, "/dev/null", "null"⟩ none sample_wf rfl rfl).1⟩

/-- C8: shortName derivation: the record created by `path_create_device`
carries `sysnameOf devnode`, which is the substring after the last
separator of the devnode (empty when the devnode has no separator); in
particular `/dev/input/event3` yields `event3`. -/
theorem c8_short_name_derivation (s : PathInput) (devnode : String) :
    (mkRec s devnode).sysname = sysnameOf devnode ∧
    (∀ (A : Adapter) (ov : Option String) (dv : Device),
      (path_create_device A s devnode ov).2 = some dv →
      ∃ rec ∈ (path_create_device A s devnode ov).1.path_list,
        rec.devnode = devnode ∧ rec.sysname = sysnameOf devnode) ∧
    ('/' ∉ devnode.toList → sysnameOf devnode = "") ∧
    ('/' ∈ devnode.toList →
      (∃ pre, devnode.toList = pre ++ '/' :: (sysnameOf devnode).toList) ∧
      '/' ∉ (sysnameOf devnode).toList) ∧
    sysnameOf "/dev/input/event3" = "event3" := by
  refine ⟨rfl, ?_, sysnameOf_no_sep, sysnameOf_sep, by decide⟩
  intro A ov dv h
  rw [create_path_list_some h]
  exact ⟨mkRec s devnode, List.mem_cons_self _ _, rfl, rfl⟩

theorem c8_short_name_derivation_witness :
    '/' ∈ "/dev/input/event3".toList ∧
    ((∃ pre, "/dev/input/event3".toList =
        pre ++ '/' :: (sysnameOf "/dev/input/event3").toList) ∧
      '/' ∉ (sysnameOf "/dev/input/event3").toList) ∧
    sysnameOf "/dev/input/event3" = "event3" ∧
    sysnameOf "noseparator" = "" :=
  ⟨by decide,
    (c8_short_name_derivation initialInput "/dev/input/event3").2.2.2.1 (by decide),
    (c8_short_name_derivation initialInput "/dev/input/event3").2.2.2.2,
    (c8_short_name_derivation initialInput "noseparator").2.2.1 (by decide)⟩

/-- C1: resume is all-or-nothing: `path_input_enable` enables every
registered path record in registry order with no logical-name override.
It returns 0 or -1; on 0 the path registry is unchanged and every
record carries a device on the default seat pair; on -1 it has run the
suspend sweep, so no seat holds any device afterwards. -/
theorem c1_resume_all_or_nothing (A : Adapter) (s : PathInput) (h : WF s) :
    ((path_input_enable A s).2 = 0 ∨ (path_input_enable A s).2 = -1) ∧
    ((path_input_enable A s).2 = 0 →
      (path_input_enable A s).1.path_list = s.path_list ∧
      ∀ rec ∈ s.path_list, DevOnSeat (path_input_enable A s).1 rec.devnodeId
        default_seat default_seat_name) ∧
    ((path_input_enable A s).2 = -1 →
      ∀ st ∈ (path_input_enable A s).1.seat_list, st.devices_list = []) := by
  have hI : Inv (fun _ => True) s := h
  rcases resume_go_main s.path_list s A hI (fun r hr => hr) with ⟨-, g2, g3, g4⟩
  refine ⟨?_, ?_, ?_⟩
  · rcases g3 with h0 | ⟨h1, -⟩
    · exact Or.inl h0
    · exact Or.inr h1
  · intro h0
    exact ⟨g2, (g4 h0).1⟩
  · intro h0
    rcases g3 with h1 | ⟨-, h2⟩
    · have h1' : (path_input_enable A s).2 = 0 := h1
      rw [h0] at h1'
      exact absurd h1' (by decide)
    · exact h2

theorem c1_resume_all_or_nothing_witness :
    WF sampleInput ∧
    ((path_input_enable alwaysCreate sampleInput).2 = 0 ∨
      (path_input_enable alwaysCreate sampleInput).2 = -1) :=
  ⟨sample_wf, (c1_resume_all_or_nothing alwaysCreate sampleInput sample_wf).1⟩

/-- C3: removal scans the path registry by devnode identity and unlinks
exactly the matching record (no change and no error when none matches,
all other records untouched), the device is removed from its seat's
device set in all cases, and a second removal of the same handle leaves
the state fixed. -/
theorem c3_remove_by_devnode_identity (s : PathInput) (d : Device) (h : WF s)
    (hdi : DeviceIn s d) :
    ((∀ rec ∈ s.path_list, rec.devnodeId ≠ d.devnodeId) →
      (libinput_path_remove_device s d).path_list = s.path_list) ∧
    (∀ rec ∈ s.path_list, rec.devnodeId = d.devnodeId →
      rec ∉ (libinput_path_remove_device s d).path_list ∧
      ∀ r2 ∈ s.path_list, r2 ≠ rec →
        r2 ∈ (libinput_path_remove_device s d).path_list) ∧
    (∀ r2 ∈ (libinput_path_remove_device s d).path_list, r2 ∈ s.path_list) ∧
    (∀ st ∈ (libinput_path_remove_device s d).seat_list, ∀ x ∈ st.devices_list,
      x.devId ≠ d.devId) ∧
    libinput_path_remove_device (libinput_path_remove_device s d) d =
      libinput_path_remove_device s d := by
  have hI : Inv (fun _ => True) s := h
  refine ⟨?_, ?_, ?_, ?_, remove_device_idem hI hdi⟩
  · intro hno
    rw [remove_device_path_list]
    exact removeFirstRecord_eq_self hno
  · intro rec hrec hid
    constructor
    · intro hin
      rw [remove_device_path_list] at hin
      exact removeFirstRecord_no_id hI.recIdsNodup hin hid
    · intro r2 hr2 hne
      rw [remove_device_path_list]
      apply removeFirstRecord_mem_other hr2
      intro he
      exact hne (List.inj_on_of_nodup_map hI.recIdsNodup hr2 hrec (he.trans hid.symm))
  · intro r2 hr2
    rw [remove_device_path_list] at hr2
    exact mem_removeFirstRecord hr2
  · exact remove_device_absent (SeatWF.ofInv hI) hdi

theorem c3_remove_by_devnode_identity_witness :
    DeviceIn sampleInput sampleDevice ∧
    libinput_path_remove_device
        (libinput_path_remove_device sampleInput sampleDevice) sampleDevice =
      libinput_path_remove_device sampleInput sampleDevice :=
  ⟨by decide,
    (c3_remove_by_devnode_identity sampleInput sampleDevice sample_wf
      (by decide)).2.2.2.2⟩

/-- C4: seat uniqueness: in every reachable state no two seats share the
(physical, logical) name pair, enabling into an existing pair attaches
the new device to that very seat and adds no seat, and enabling into an
absent pair creates exactly one new seat carrying that pair. -/
theorem c4_seat_uniqueness (s : PathInput) (h : Reachable s) :
    (seatPairs s.seat_list).Nodup ∧
    (∀ (A : Adapter) (dev : PathRecord) (ov : Option String) (st0 : Seat),
      path_seat_get_named s default_seat (ov.getD default_seat_name) = some st0 →
      seatPairs (path_device_enable A s dev ov).1.seat_list = seatPairs s.seat_list ∧
      ∀ dv, (path_device_enable A s dev ov).2 = some dv →
        ∃ st ∈ (path_device_enable A s dev ov).1.seat_list,
          st.seatId = st0.seatId ∧ dv ∈ st.devices_list) ∧
    (∀ (A : Adapter) (dev : PathRecord) (ov : Option String),
      path_seat_get_named s default_seat (ov.getD default_seat_name) = none →
      ∀ dv, (path_device_enable A s dev ov).2 = some dv →
        seatPairs (path_device_enable A s dev ov).1.seat_list =
          (default_seat, ov.getD default_seat_name) :: seatPairs s.seat_list) := by
  have hI : Inv (fun _ => True) s := inv_of_reachable h
  refine ⟨hI.pairsNodup, ?_, ?_⟩
  · intro A dev ov st0 hf
    constructor
    · cases hA : A default_seat (ov.getD default_seat_name) dev.devnode dev.sysname with
      | created =>
        rw [enable_found_created hf hA]
        exact seatPairs_attach _ _ _
      | unhandled => rw [enable_found_fail hf hI.refPos (Or.inl hA)]
      | failed => rw [enable_found_fail hf hI.refPos (Or.inr hA)]
    · intro dv hdv
      cases hA : A default_seat (ov.getD default_seat_name) dev.devnode dev.sysname with
      | created =>
        rw [enable_found_created hf hA] at hdv ⊢
        have hdve : dv = mkDev s.nextId dev st0.seatId := (Option.some_inj.mp hdv).symm
        subst hdve
        rcases get_named_some hf with ⟨hst0, -, -⟩
        exact ⟨{ st0 with
            devices_list := mkDev s.nextId dev st0.seatId :: st0.devices_list,
            refcount := st0.refcount + 1 },
          List.mem_map.mpr ⟨st0, hst0, by simp⟩, by simp, List.mem_cons_self _ _⟩
      | unhandled =>
        rw [enable_found_fail hf hI.refPos (Or.inl hA)] at hdv
        simp at hdv
      | failed =>
        rw [enable_found_fail hf hI.refPos (Or.inr hA)] at hdv
        simp at hdv
  · intro A dev ov hf dv hdv
    cases hA : A default_seat (ov.getD default_seat_name) dev.devnode dev.sysname with
    | created =>
      rw [enable_none_created hf (inv_fresh_sid hI) hA]
      simp [seatPairs]
    | unhandled =>
      rw [enable_none_fail hf (inv_fresh_sid hI) (Or.inl hA)] at hdv
      simp at hdv
    | failed =>
      rw [enable_none_fail hf (inv_fresh_sid hI) (Or.inr hA)] at hdv
      simp at hdv

theorem c4_seat_uniqueness_witness :
    Reachable sampleInput ∧ (seatPairs sampleInput.seat_list).Nodup :=
  ⟨sample_reachable, (c4_seat_uniqueness sampleInput sample_reachable).1⟩

/-- C9 (counterexample): the claim fails as stated — adding the
empty-string path under an adapter that accepts it yields a reachable
state whose path registry holds a record with an empty devnode. -/
theorem c9_devnode_nonempty_counterexample :
    Reachable (libinput_path_add_device alwaysCreate initialInput "").1 ∧
    ∃ rec ∈ (libinput_path_add_device alwaysCreate initialInput "").1.path_list,
      rec.devnode = "" :=
  ⟨ReachableP.add alwaysCreate initialInput "" ReachableP.init trivial, by decide⟩

/-- C9 (amended): in every context state reachable with every
caller-supplied path non-empty, every record in the path registry has a
non-empty devnode. -/
theorem c9_devnode_nonempty_amended (s : PathInput)
    (h : ReachableP (fun p => p ≠ "") s) :
    ∀ rec ∈ s.path_list, rec.devnode ≠ "" :=
  (inv_of_reachable h).recP

theorem c9_devnode_nonempty_amended_witness :
    ReachableP (fun p => p ≠ "") sampleInput ∧
    ∀ rec ∈ sampleInput.path_list, rec.devnode ≠ "" :=
  ⟨ReachableP.add alwaysCreate initialInput "/dev/input/event3" ReachableP.init
      (by decide),
    c9_devnode_nonempty_amended sampleInput
      (ReachableP.add alwaysCreate initialInput "/dev/input/event3" ReachableP.init
        (by decide))⟩

/-- C2: changeSeat is destructive with success iff re-enable: the
device's path record is removed and the device disabled, a fresh record
with the same devnode content is re-added and enabled under the new
logical name; the return value is 0 exactly when this re-enable
produced a live device; the original device is gone in all cases; on
failure the fresh record is rolled back and no device was added. -/
theorem c2_change_seat_destructive_move (A : Adapter) (s : PathInput) (d : Device)
    (nm : String) (h : WF s) (hdi : DeviceIn s d) :
    ((path_device_change_seat A s d nm).2 = 0 ∨
      (path_device_change_seat A s d nm).2 = -1) ∧
    ((path_device_change_seat A s d nm).2 = 0 ↔
      (path_create_device A (libinput_path_remove_device s d) d.devnode
        (some nm)).2.isSome = true) ∧
    (∀ st ∈ (path_device_change_seat A s d nm).1.seat_list,
      ∀ x ∈ st.devices_list, x.devId ≠ d.devId) ∧
    (∀ rec ∈ (path_device_change_seat A s d nm).1.path_list,
      rec.devnodeId ≠ d.devnodeId) ∧
    ((path_device_change_seat A s d nm).2 = 0 →
      (∃ st ∈ (path_device_change_seat A s d nm).1.seat_list,
        st.physical_name = default_seat ∧ st.logical_name = nm ∧
        ∃ x ∈ st.devices_list, x.devnode = d.devnode ∧ x.devId ≠ d.devId) ∧
      ∃ rec ∈ (path_device_change_seat A s d nm).1.path_list,
        rec.devnode = d.devnode) ∧
    ((path_device_change_seat A s d nm).2 = -1 →
      (path_device_change_seat A s d nm).1.path_list =
        removeFirstRecord s.path_list d.devnodeId ∧
      ∀ x ∈ seatDevs (path_device_change_seat A s d nm).1.seat_list,
        x ∈ seatDevs s.seat_list) := by
  have hI : Inv (fun _ => True) s := h
  have hI1 : Inv (fun _ => True) (libinput_path_remove_device s d) :=
    remove_device_inv d hI
  have hI1c : Inv (fun _ => True)
      (createMid (libinput_path_remove_device s d) d.devnode) :=
    inv_consRecord hI1 trivial
  have hfst := change_seat_fst A s d nm
  have habs1 : DevIdAbsent (libinput_path_remove_device s d).seat_list d.devId :=
    remove_device_absent (SeatWF.ofInv hI) hdi
  have hdin : d ∈ seatDevs s.seat_list := by
    rcases hdi with ⟨st, hst, hd⟩
    exact mem_seatDevs_of hst hd
  have hdlt : d.devId < s.nextId := hI.devIdsLt d hdin
  have hrlt : d.devnodeId < s.nextId := hI.devRecIdLt d hdin
  have hnext1 : (libinput_path_remove_device s d).nextId = s.nextId :=
    remove_device_nextId s d
  have hgone : ∀ st ∈ (path_device_change_seat A s d nm).1.seat_list,
      ∀ x ∈ st.devices_list, x.devId ≠ d.devId := by
    intro st hst x hx hxe
    rw [hfst, create_seat_list] at hst
    have hxd := mem_seatDevs_of hst hx
    rcases enable_devs_superset A (createMid (libinput_path_remove_device s d)
        d.devnode) (mkRec (libinput_path_remove_device s d) d.devnode)
        (some nm) x hxd with hold | hnew
    · have hx1 : x ∈ seatDevs (libinput_path_remove_device s d).seat_list := hold
      exact absent_seatDevs habs1 x hx1 hxe
    · have hfacts := enable_some_facts hnew
      have hc : (createMid (libinput_path_remove_device s d) d.devnode).nextId =
          (libinput_path_remove_device s d).nextId + 1 := rfl
      have := hfacts.2.2.2
      omega
  have hrec : ∀ rec ∈ (path_device_change_seat A s d nm).1.path_list,
      rec.devnodeId ≠ d.devnodeId := by
    intro rec hrec
    rw [hfst] at hrec
    cases hc : (path_create_device A (libinput_path_remove_device s d) d.devnode
        (some nm)).2 with
    | some dv =>
      rw [create_path_list_some hc] at hrec
      rcases List.mem_cons.mp hrec with heq | hmem
      · rw [heq]
        show (mkRec (libinput_path_remove_device s d) d.devnode).devnodeId ≠ d.devnodeId
        simp only [mkRec]
        omega
      · rw [remove_device_path_list] at hmem
        exact removeFirstRecord_no_id hI.recIdsNodup hmem
    | none =>
      rw [create_path_list_none hc, remove_device_path_list] at hrec
      exact removeFirstRecord_no_id hI.recIdsNodup hrec
  have h12 : ((path_device_change_seat A s d nm).2 = 0 ∨
      (path_device_change_seat A s d nm).2 = -1) ∧
      ((path_device_change_seat A s d nm).2 = 0 ↔
        (path_create_device A (libinput_path_remove_device s d) d.devnode
          (some nm)).2.isSome = true) := by
    rcases change_seat_ret A s d nm with ⟨hr, hcrt⟩ | ⟨hr, hcrt⟩
    · exact ⟨Or.inl hr, ⟨fun _ => hcrt, fun _ => hr⟩⟩
    · refine ⟨Or.inr hr, ⟨fun h0 => ?_, fun hs2 => ?_⟩⟩
      · rw [hr] at h0
        exact absurd h0 (by decide)
      · rw [hcrt] at hs2
        simp at hs2
  have hsucc : (path_device_change_seat A s d nm).2 = 0 →
      (∃ st ∈ (path_device_change_seat A s d nm).1.seat_list,
        st.physical_name = default_seat ∧ st.logical_name = nm ∧
        ∃ x ∈ st.devices_list, x.devnode = d.devnode ∧ x.devId ≠ d.devId) ∧
      ∃ rec ∈ (path_device_change_seat A s d nm).1.path_list,
        rec.devnode = d.devnode := by
    intro h0
    have hsome := h12.2.mp h0
    rcases Option.isSome_iff_exists.mp hsome with ⟨dv, hdv⟩
    have hdv' : (path_device_enable A (createMid (libinput_path_remove_device s d)
        d.devnode) (mkRec (libinput_path_remove_device s d) d.devnode)
        (some nm)).2 = some dv := by
      rw [← create_snd]
      exact hdv
    rcases enable_created_on_seat hI1c hdv' with ⟨st, hst, hp, hl, hmem⟩
    have hfacts := enable_some_facts hdv'
    refine ⟨⟨st, ?_, hp, by simpa using hl, dv, hmem, ?_, ?_⟩, ?_⟩
    · rw [hfst, create_seat_list]
      exact hst
    · rw [hfacts.1]
      rfl
    · have hc : (createMid (libinput_path_remove_device s d) d.devnode).nextId =
          (libinput_path_remove_device s d).nextId + 1 := rfl
      have := hfacts.2.2.2
      omega
    · rw [hfst, create_path_list_some hdv]
      exact ⟨mkRec (libinput_path_remove_device s d) d.devnode,
        List.mem_cons_self _ _, rfl⟩
  have hfail : (path_device_change_seat A s d nm).2 = -1 →
      (path_device_change_seat A s d nm).1.path_list =
        removeFirstRecord s.path_list d.devnodeId ∧
      ∀ x ∈ seatDevs (path_device_change_seat A s d nm).1.seat_list,
        x ∈ seatDevs s.seat_list := by
    intro h1
    have hnone : (path_create_device A (libinput_path_remove_device s d) d.devnode
        (some nm)).2 = none := by
      rcases change_seat_ret A s d nm with ⟨hr, -⟩ | ⟨-, hcrt⟩
      · rw [h1] at hr
        exact absurd hr (by decide)
      · exact hcrt
    constructor
    · rw [hfst, create_path_list_none hnone, remove_device_path_list]
    · intro x hx
      rw [hfst, create_seat_list] at hx
      have hnone' : (path_device_enable A (createMid (libinput_path_remove_device s d)
          d.devnode) (mkRec (libinput_path_remove_device s d) d.devnode)
          (some nm)).2 = none := by
        rw [← create_snd]
        exact hnone
      rw [enable_none_seat_list hI1c hnone'] at hx
      have hx1 : x ∈ seatDevs (libinput_path_remove_device s d).seat_list := hx
      exact (shrinks_remove_device s d).devs.mem hx1
  exact ⟨h12.1, h12.2, hgone, hrec, hsucc, hfail⟩

theorem c2_change_seat_destructive_move_witness :
    DeviceIn sampleInput sampleDevice ∧
    ((path_device_change_seat alwaysCreate sampleInput sampleDevice "alt").2 = 0 ∨
      (path_device_change_seat alwaysCreate sampleInput sampleDevice "alt").2 = -1) :=
  ⟨by decide,
    (c2_change_seat_destructive_move alwaysCreate sampleInput sampleDevice "alt"
      sample_wf (by decide)).1⟩

end PathSeat
